import Mathlib

/-!
# CHIP-8 interpreter: embedding of `src/main.cc` and verification of its specification

The class `Chip_8` of `src/main.cc` is embedded as a record of its data members and one
Lean function per member function, with the names of the source.

Conventions of the embedding.

* A `std::array<T, N>` member is a map `Nat → Nat` together with the size `N`, which every
  `operator[]` access states through `subscript N i`.  `std::array::operator[]` performs no
  bounds check and throws no exception: an index outside `0..N-1` is undefined behaviour,
  recorded as the outcome `Stop.out_of_bounds`.  The register file `V` is only ever indexed by
  a decoded nibble, by `0` or by `0xF`, so its accesses are written without `subscript`.
* `std::uint8_t` and `std::uint16_t` values are natural numbers; every store that can leave
  the type's range is reduced with an explicit `% 256` or `% 65536`.  `&`, `|`, `^` and `>>`
  of in-range operands stay in range and are stored as computed.
* `std::abort()` after a diagnostic, an exception in flight, undefined behaviour and a poll
  loop that never returns are the constructors of `Stop`; a member function that can stop
  returns `Except Stop _`.
* The host (SFML window, keyboard, sound, random engine) is part of the record: the answers
  the host will give to `pollEvent`, the numbers the random engine will produce, and a
  counter of `sound.play()` calls.  Rendering calls (`clear`, `draw`, `display`) do not change
  any data member and are left out.
-/

namespace Chip8

/-- Ways in which a statement ends other than by falling through to the next statement. -/
inductive Stop where
  /-- The diagnostic `Unkown opcode <opcode>` followed by `std::abort()`. -/
  | unknown_opcode (opcode : Nat)
  /-- The diagnostic `*** Stack Overflow ***` followed by `std::abort()`. -/
  | stack_overflow
  /-- The diagnostic `*** ROM is too large ***` followed by `std::abort()`. -/
  | rom_too_large
  /-- A `std::out_of_range` exception in flight (only a checked access such as `at` throws it). -/
  | out_of_range
  /-- An `operator[]` access outside the array: undefined behaviour, nothing is thrown. -/
  | out_of_bounds
  /-- The poll loop of `wait_vx_key_press` with the window open and no further host input. -/
  | blocked
  deriving DecidableEq, Repr

/-- The kinds of `sf::Event` the program looks at; every other kind is `other`. -/
inductive EventType where
  | Closed
  | GainedFocus
  | LostFocus
  | KeyPressed
  | KeyReleased
  | other
  deriving DecidableEq, Repr

/-- One event returned by `pollEvent`, with the keyboard as `sf::Keyboard::isKeyPressed` reports
it while the event is handled: `keyboard k` is the state of the physical key that the layout
comment of the source maps to CHIP-8 key `k` (X, Q, 2, 3, 1, W, E, A, S, D, Z, C, 4, R, F, V
for `k = 0..15`). -/
structure Event where
  type : EventType
  keyboard : Nat → Bool

/-- The data members of `class Chip_8`, and the host state the member functions talk to. -/
structure Chip_8 where
  /-- The value of `chip_8_window.isOpen()`. -/
  window_open : Bool
  focused : Bool
  opcode : Nat
  /-- The member `std::array<std::uint8_t, 4096> memory`. -/
  memory : Nat → Nat
  /-- The member `std::array<std::uint8_t, 16> V`. -/
  V : Nat → Nat
  I : Nat
  pc : Nat
  /-- The member `std::array<std::uint16_t, 16> stack`. -/
  stack : Nat → Nat
  sp : Nat
  /-- The member `std::array<std::uint8_t, 16> key`. -/
  key : Nat → Nat
  /-- The member `std::array<std::uint8_t, 64 * 32> gfx`. -/
  gfx : Nat → Nat
  delay_timer : Nat
  sound_timer : Nat
  /-- The results of the calls `distribution(mersenne)` still to come, in order. -/
  random : Nat → Nat
  /-- The number of calls `distribution(mersenne)` made so far. -/
  draws : Nat
  /-- The results of the calls `pollEvent` still to come on the open window: `some e` for an
  event, `none` for an empty queue. -/
  events : List (Option Event)
  /-- The number of calls `sound.play()` made so far. -/
  plays : Nat

/-- Assignment `a[i] = v` to an array element. -/
def upd (a : Nat → Nat) (i v : Nat) : Nat → Nat :=
  fun j => if j = i then v else a j

/-- The bounds side of `a[i]` on a `std::array` of `size` elements. -/
def subscript (size i : Nat) : Except Stop Unit :=
  if i < size then .ok () else .error .out_of_bounds

/-- The member `fontset`. -/
def fontset : List Nat :=
  [0xF0, 0x90, 0x90, 0x90, 0xF0,
   0x20, 0x60, 0x20, 0x20, 0x70,
   0xF0, 0x10, 0xF0, 0x80, 0xF0,
   0xF0, 0x10, 0xF0, 0x10, 0xF0,
   0x90, 0x90, 0xF0, 0x10, 0x10,
   0xF0, 0x80, 0xF0, 0x10, 0xF0,
   0xF0, 0x80, 0xF0, 0x90, 0xF0,
   0xF0, 0x10, 0x20, 0x40, 0x40,
   0xF0, 0x90, 0xF0, 0x90, 0xF0,
   0xF0, 0x90, 0xF0, 0x10, 0xF0,
   0xF0, 0x90, 0xF0, 0x90, 0x90,
   0xE0, 0x90, 0xE0, 0x90, 0xE0,
   0xF0, 0x80, 0x80, 0x80, 0xF0,
   0xE0, 0x90, 0x90, 0x90, 0xE0,
   0xF0, 0x80, 0xF0, 0x80, 0xF0,
   0xF0, 0x80, 0xF0, 0x80, 0x80]

/-- The constructor `Chip_8::Chip_8`: every member value-initialised, `pc = 0x200`, the font
copied to `memory[0..79]`.  The host parts are the arguments. -/
def Chip_8.new (random : Nat → Nat) (events : List (Option Event)) : Chip_8 :=
  { window_open := true
    focused := true
    opcode := 0
    memory := fun a => fontset.getD a 0
    V := fun _ => 0
    I := 0
    pc := 0x200
    stack := fun _ => 0
    sp := 0
    key := fun _ => 0
    gfx := fun _ => 0
    delay_timer := 0
    sound_timer := 0
    random := random
    draws := 0
    events := events
    plays := 0 }

/-- The statement `pc += 2` on the 16-bit program counter. -/
def pc_add_2 (s : Chip_8) : Chip_8 :=
  { s with pc := (s.pc + 2) % 65536 }

def clear_screen (s : Chip_8) : Chip_8 :=
  { s with gfx := fun i => if i < 64 * 32 then 0 else s.gfx i }

/-- Member function `Chip_8::call`.  The `try` block holds the one statement `stack[sp] = pc + 2`; the handler
runs only for a `std::out_of_range` exception. -/
def call (s : Chip_8) (address : Nat) : Except Stop Chip_8 :=
  match subscript 16 s.sp with
  | .error .out_of_range => .error .stack_overflow
  | .error e => .error e
  | .ok () =>
    .ok { s with stack := upd s.stack s.sp ((s.pc + 2) % 65536)
                 sp := (s.sp + 1) % 256
                 pc := address }

def add_vx_to_vy (s : Chip_8) (x y : Nat) : Chip_8 :=
  let s1 : Chip_8 :=
    if s.V x > 0xFF - s.V y then { s with V := upd s.V 0xF 1 }
    else { s with V := upd s.V 0xF 0 }
  { s1 with V := upd s1.V x ((s1.V x + s1.V y) % 256) }

/-- Member function `Chip_8::_return`: `pc = stack[--sp]` with the 8-bit `sp`. -/
def _return (s : Chip_8) : Except Stop Chip_8 :=
  let sp := (s.sp + 255) % 256
  match subscript 16 sp with
  | .error e => .error e
  | .ok () => .ok { s with sp := sp, pc := s.stack sp }

def jump (s : Chip_8) (address : Nat) : Chip_8 :=
  { s with pc := address }

def skip_if_vx_eq_n (s : Chip_8) (x n : Nat) : Chip_8 :=
  if s.V x = n then pc_add_2 s else s

def skip_if_vx_ne_n (s : Chip_8) (x n : Nat) : Chip_8 :=
  if s.V x ≠ n then pc_add_2 s else s

def skip_if_vx_eq_vy (s : Chip_8) (x y : Nat) : Chip_8 :=
  if s.V x = s.V y then pc_add_2 s else s

def set_vx_to_n (s : Chip_8) (x n : Nat) : Chip_8 :=
  { s with V := upd s.V x n }

def add_n_to_vx (s : Chip_8) (x n : Nat) : Chip_8 :=
  { s with V := upd s.V x ((s.V x + n) % 256) }

def set_vx_to_vy (s : Chip_8) (x y : Nat) : Chip_8 :=
  { s with V := upd s.V x (s.V y) }

def set_vx_to_vx_or_vy (s : Chip_8) (x y : Nat) : Chip_8 :=
  { s with V := upd s.V x (s.V x ||| s.V y) }

def set_vx_to_vx_and_vy (s : Chip_8) (x y : Nat) : Chip_8 :=
  { s with V := upd s.V x (s.V x &&& s.V y) }

def set_vx_to_vx_xor_vy (s : Chip_8) (x y : Nat) : Chip_8 :=
  { s with V := upd s.V x (s.V x ^^^ s.V y) }

/-- Member function `Chip_8::sub_vy_from_vx`: the difference is computed in `int` and stored to 8 bits. -/
def sub_vy_from_vx (s : Chip_8) (x y : Nat) : Chip_8 :=
  let s1 : Chip_8 :=
    if s.V x > s.V y then { s with V := upd s.V 0xF 1 }
    else { s with V := upd s.V 0xF 0 }
  { s1 with V := upd s1.V x (Int.toNat (((s1.V x : Int) - (s1.V y : Int)) % 256)) }

/-- Member function `Chip_8::sub_vx_from_vy`: the difference is computed in `int` and stored to 8 bits. -/
def sub_vx_from_vy (s : Chip_8) (x y : Nat) : Chip_8 :=
  let s1 : Chip_8 :=
    if s.V y > s.V x then { s with V := upd s.V 0xF 1 }
    else { s with V := upd s.V 0xF 0 }
  { s1 with V := upd s1.V x (Int.toNat (((s1.V y : Int) - (s1.V x : Int)) % 256)) }

def least_vx_to_vf_right_shift_vx (s : Chip_8) (x : Nat) : Chip_8 :=
  let s1 : Chip_8 := { s with V := upd s.V 0xF (s.V x &&& 0x1) }
  { s1 with V := upd s1.V x (s1.V x >>> 1) }

def most_vx_to_vf_left_shift_vx (s : Chip_8) (x : Nat) : Chip_8 :=
  let s1 : Chip_8 := { s with V := upd s.V 0xF (if s.V x &&& 0x80 ≠ 0 then 1 else 0) }
  { s1 with V := upd s1.V x ((s1.V x <<< 1) % 256) }

def skip_if_vx_ne_vy (s : Chip_8) (x y : Nat) : Chip_8 :=
  if s.V x ≠ s.V y then pc_add_2 s else s

def set_i_to_n (s : Chip_8) (n : Nat) : Chip_8 :=
  { s with I := n }

def jump_to_address_plus_v0 (s : Chip_8) (address : Nat) : Chip_8 :=
  { s with pc := (address + s.V 0) % 65536 }

/-- Member function `Chip_8::set_vx_to_rand_and_n`: one call of the distribution over `0x0..0xFF`. -/
def set_vx_to_rand_and_n (s : Chip_8) (x n : Nat) : Chip_8 :=
  { s with V := upd s.V x ((s.random s.draws % 256) &&& n), draws := s.draws + 1 }

/-- The body of the inner loop of `Chip_8::draw`, for column `i` of row `row`. -/
def draw_pixel (x y row sprite_row : Nat) (s : Chip_8) (i : Nat) : Chip_8 :=
  let sprite_pixel := (1 <<< (7 - i)) &&& sprite_row
  let gfx_pixel := s.gfx ((s.V x + i) % 64 + ((s.V y + row) % 32) * 64)
  let s1 : Chip_8 :=
    if sprite_pixel ≠ 0 ∧ gfx_pixel ≠ 0 then { s with V := upd s.V 0xF 1 } else s
  { s1 with gfx := upd s1.gfx ((s1.V x + i) % 64 + ((s1.V y + row) % 32) * 64)
                     (sprite_pixel ^^^ gfx_pixel) }

/-- The body of the outer loop of `Chip_8::draw`, for row `row`: the read `memory[I + row]`
and the inner loop `for (i = 0; i < 8; ++i)`. -/
def draw_row (x y : Nat) (s : Chip_8) (row : Nat) : Except Stop Chip_8 :=
  match subscript 4096 (s.I + row) with
  | .error e => .error e
  | .ok () => .ok ((List.range 8).foldl (draw_pixel x y row (s.memory (s.I + row))) s)

/-- The loop `for (row = 0; row < n; ++row)` of `Chip_8::draw`, run over the rows listed. -/
def draw_rows (x y : Nat) : List Nat → Chip_8 → Except Stop Chip_8
  | [], s => .ok s
  | row :: rows, s =>
    match draw_row x y s row with
    | .error e => .error e
    | .ok s1 => draw_rows x y rows s1

/-- Member function `Chip_8::draw`, up to the rendering of `gfx` to the window. -/
def draw (s : Chip_8) (x y n : Nat) : Except Stop Chip_8 :=
  draw_rows x y (List.range n) { s with V := upd s.V 0xF 0 }

def set_vx_to_delay (s : Chip_8) (x : Nat) : Chip_8 :=
  { s with V := upd s.V x s.delay_timer }

def set_sound_timer_to_vx (s : Chip_8) (x : Nat) : Chip_8 :=
  { s with sound_timer := s.V x }

def set_i_to_sprite_vx (s : Chip_8) (x : Nat) : Chip_8 :=
  { s with I := (s.V x * 0x5) % 65536 }

/-- The loop of `Chip_8::store_v0_to_vx_in_i`, run over the register indices listed. -/
def store_loop : List Nat → Chip_8 → Except Stop Chip_8
  | [], s => .ok s
  | i :: is, s =>
    match subscript 4096 (s.I + i) with
    | .error e => .error e
    | .ok () => store_loop is { s with memory := upd s.memory (s.I + i) (s.V i) }

/-- Member function `Chip_8::store_v0_to_vx_in_i`: `for (i = 0; i <= x; ++i) memory[I + i] = V[i]`. -/
def store_v0_to_vx_in_i (s : Chip_8) (x : Nat) : Except Stop Chip_8 :=
  store_loop (List.range (x + 1)) s

/-- The loop of `Chip_8::read_i_into_v0_to_vx`, run over the register indices listed. -/
def read_loop : List Nat → Chip_8 → Except Stop Chip_8
  | [], s => .ok s
  | i :: is, s =>
    match subscript 4096 (s.I + i) with
    | .error e => .error e
    | .ok () => read_loop is { s with V := upd s.V i (s.memory (s.I + i)) }

/-- Member function `Chip_8::read_i_into_v0_to_vx`: `for (i = 0; i <= x; ++i) V[i] = memory[I + i]`. -/
def read_i_into_v0_to_vx (s : Chip_8) (x : Nat) : Except Stop Chip_8 :=
  read_loop (List.range (x + 1)) s

def add_i_and_vx (s : Chip_8) (x : Nat) : Chip_8 :=
  { s with I := (s.I + s.V x) % 65536 }

def skip_if_vx_pressed (s : Chip_8) (x : Nat) : Except Stop Chip_8 :=
  match subscript 16 (s.V x) with
  | .error e => .error e
  | .ok () => .ok (if s.key (s.V x) ≠ 0 then pc_add_2 s else s)

def skip_if_vx_not_pressed (s : Chip_8) (x : Nat) : Except Stop Chip_8 :=
  match subscript 16 (s.V x) with
  | .error e => .error e
  | .ok () => .ok (if ¬ (s.key (s.V x) ≠ 0) then pc_add_2 s else s)

def focus (s : Chip_8) : Chip_8 :=
  { s with focused := true }

def unfocus (s : Chip_8) : Chip_8 :=
  { s with focused := false }

/-- Member function `Chip_8::set_keys` against the keyboard state `keyboard`. -/
def set_keys (s : Chip_8) (keyboard : Nat → Bool) : Chip_8 :=
  if ¬ s.focused then s
  else { s with key := fun k => if k < 16 then (if keyboard k then 1 else 0) else s.key k }

/-- The `if … else if …` chain of `wait_vx_key_press` over the sixteen mapped keys, tested in
the order of the CHIP-8 key index, starting at index `k` with `fuel` keys left to test. -/
def first_pressed (keyboard : Nat → Bool) : Nat → Nat → Option Nat
  | 0, _ => none
  | fuel + 1, k => if keyboard k then some k else first_pressed keyboard fuel (k + 1)

/-- The body of the inner `while (pollEvent(event))` loop of `wait_vx_key_press`. -/
def handle_event (s : Chip_8) (x : Nat) (e : Event) : Chip_8 :=
  let s1 : Chip_8 := if e.type = .Closed then { s with window_open := false } else s
  let s2 : Chip_8 := if e.type = .GainedFocus then focus s1 else s1
  let s3 : Chip_8 := if e.type = .LostFocus then unfocus s2 else s2
  if ¬ s3.focused then s3
  else if e.type = .KeyPressed then
    let s4 := set_keys s3 e.keyboard
    match first_pressed e.keyboard 16 0 with
    | some k => { s4 with V := upd s4.V x k }
    | none => s4
  else s3

/-- The two nested loops of `wait_vx_key_press`, run against the answers `pollEvent` will
give.  A closed window answers every poll with "no event", which ends the inner loop and then
the outer one; an open window with no answer left never returns. -/
def wait_loop (x : Nat) : List (Option Event) → Chip_8 → Except Stop Chip_8
  | [], s => if s.window_open then .error .blocked else .ok { s with events := [] }
  | none :: rest, s =>
    if s.window_open then wait_loop x rest s else .ok { s with events := none :: rest }
  | some e :: rest, s =>
    if s.window_open then wait_loop x rest (handle_event s x e)
    else .ok { s with events := some e :: rest }

def wait_vx_key_press (s : Chip_8) (x : Nat) : Except Stop Chip_8 :=
  wait_loop x s.events s

/-- Member function `Chip_8::set_i_to_bcd_of_vx`: three element assignments, each with its bounds side. -/
def set_i_to_bcd_of_vx (s : Chip_8) (x : Nat) : Except Stop Chip_8 :=
  match subscript 4096 s.I with
  | .error e => .error e
  | .ok () =>
    let s1 : Chip_8 := { s with memory := upd s.memory s.I ((s.V x / 100) % 10) }
    match subscript 4096 (s1.I + 1) with
    | .error e => .error e
    | .ok () =>
      let s2 : Chip_8 := { s1 with memory := upd s1.memory (s1.I + 1) ((s1.V x / 10) % 10) }
      match subscript 4096 (s2.I + 2) with
      | .error e => .error e
      | .ok () => .ok { s2 with memory := upd s2.memory (s2.I + 2) ((s2.V x / 1) % 10) }

def set_delay_to_vx (s : Chip_8) (x : Nat) : Chip_8 :=
  { s with delay_timer := s.V x }

/-- The timer statements that end `Chip_8::emulate_cycle`. -/
def update_timers (s : Chip_8) : Chip_8 :=
  let s1 : Chip_8 :=
    if s.delay_timer > 0 then { s with delay_timer := s.delay_timer - 1 } else s
  if s1.sound_timer > 0 then
    let s2 : Chip_8 := if s1.sound_timer = 1 then { s1 with plays := s1.plays + 1 } else s1
    { s2 with sound_timer := s2.sound_timer - 1 }
  else s1

/-- The `switch (opcode & 0xF000)` of `Chip_8::emulate_cycle` with its nested switches, on
the member `opcode` already fetched.  A `case` that ends in `break` is one branch. -/
def execute (s : Chip_8) : Except Stop Chip_8 :=
  let opcode := s.opcode
  let x := (opcode &&& 0x0F00) >>> 8
  let y := (opcode &&& 0x00F0) >>> 4
  if opcode &&& 0xF000 = 0x0000 then
    if opcode &&& 0x00FF = 0x00E0 then .ok (pc_add_2 (clear_screen s))
    else if opcode &&& 0x00FF = 0x00EE then _return s
    else .error (.unknown_opcode opcode)
  else if opcode &&& 0xF000 = 0x1000 then .ok (jump s (opcode &&& 0x0FFF))
  else if opcode &&& 0xF000 = 0x2000 then call s (opcode &&& 0x0FFF)
  else if opcode &&& 0xF000 = 0x3000 then
    .ok (pc_add_2 (skip_if_vx_eq_n s x (opcode &&& 0x00FF)))
  else if opcode &&& 0xF000 = 0x4000 then
    .ok (pc_add_2 (skip_if_vx_ne_n s x (opcode &&& 0x00FF)))
  else if opcode &&& 0xF000 = 0x5000 then .ok (pc_add_2 (skip_if_vx_eq_vy s x y))
  else if opcode &&& 0xF000 = 0x6000 then .ok (pc_add_2 (set_vx_to_n s x (opcode &&& 0x00FF)))
  else if opcode &&& 0xF000 = 0x7000 then .ok (pc_add_2 (add_n_to_vx s x (opcode &&& 0x00FF)))
  else if opcode &&& 0xF000 = 0x8000 then
    if opcode &&& 0x000F = 0x0000 then .ok (pc_add_2 (set_vx_to_vy s x y))
    else if opcode &&& 0x000F = 0x0001 then .ok (pc_add_2 (set_vx_to_vx_or_vy s x y))
    else if opcode &&& 0x000F = 0x0002 then .ok (pc_add_2 (set_vx_to_vx_and_vy s x y))
    else if opcode &&& 0x000F = 0x0003 then .ok (pc_add_2 (set_vx_to_vx_xor_vy s x y))
    else if opcode &&& 0x000F = 0x0004 then .ok (pc_add_2 (add_vx_to_vy s x y))
    else if opcode &&& 0x000F = 0x0005 then .ok (pc_add_2 (sub_vy_from_vx s x y))
    else if opcode &&& 0x000F = 0x0006 then .ok (pc_add_2 (least_vx_to_vf_right_shift_vx s x))
    else if opcode &&& 0x000F = 0x0007 then .ok (pc_add_2 (sub_vx_from_vy s x y))
    else if opcode &&& 0x000F = 0x000E then .ok (pc_add_2 (most_vx_to_vf_left_shift_vx s x))
    else .error (.unknown_opcode opcode)
  else if opcode &&& 0xF000 = 0x9000 then .ok (pc_add_2 (skip_if_vx_ne_vy s x y))
  else if opcode &&& 0xF000 = 0xA000 then .ok (pc_add_2 (set_i_to_n s (opcode &&& 0x0FFF)))
  else if opcode &&& 0xF000 = 0xB000 then .ok (jump_to_address_plus_v0 s (opcode &&& 0x0FFF))
  else if opcode &&& 0xF000 = 0xC000 then
    .ok (pc_add_2 (set_vx_to_rand_and_n s x (opcode &&& 0x00FF)))
  else if opcode &&& 0xF000 = 0xD000 then (draw s x y (opcode &&& 0x000F)).map pc_add_2
  else if opcode &&& 0xF000 = 0xE000 then
    if opcode &&& 0x00FF = 0x009E then (skip_if_vx_pressed s x).map pc_add_2
    else if opcode &&& 0x00FF = 0x00A1 then (skip_if_vx_not_pressed s x).map pc_add_2
    else .error (.unknown_opcode opcode)
  else if opcode &&& 0xF000 = 0xF000 then
    if opcode &&& 0x00FF = 0x0033 then (set_i_to_bcd_of_vx s x).map pc_add_2
    else if opcode &&& 0x00FF = 0x0015 then .ok (pc_add_2 (set_delay_to_vx s x))
    else if opcode &&& 0x00FF = 0x0055 then (store_v0_to_vx_in_i s x).map pc_add_2
    else if opcode &&& 0x00FF = 0x0065 then (read_i_into_v0_to_vx s x).map pc_add_2
    else if opcode &&& 0x00FF = 0x0007 then .ok (pc_add_2 (set_vx_to_delay s x))
    else if opcode &&& 0x00FF = 0x0018 then .ok (pc_add_2 (set_sound_timer_to_vx s x))
    else if opcode &&& 0x00FF = 0x0029 then .ok (pc_add_2 (set_i_to_sprite_vx s x))
    else if opcode &&& 0x00FF = 0x000A then (wait_vx_key_press s x).map pc_add_2
    else if opcode &&& 0x00FF = 0x001E then .ok (pc_add_2 (add_i_and_vx s x))
    else .error (.unknown_opcode opcode)
  else .error (.unknown_opcode opcode)

/-- The 16-bit word that `emulate_cycle` stores in `opcode`:
`(memory[pc] << 8) | memory[pc + 1]`. -/
def fetch (s : Chip_8) : Nat :=
  ((s.memory s.pc <<< 8) ||| s.memory (s.pc + 1)) % 65536

/-- Member function `Chip_8::emulate_cycle`: the guard on `pc`, the fetch with the bounds
sides of its two reads, the dispatch, and the timers. -/
def emulate_cycle (s : Chip_8) : Except Stop Chip_8 :=
  if s.pc ≥ 4096 then .ok s
  else
    match subscript 4096 s.pc with
    | .error e => .error e
    | .ok () =>
      match subscript 4096 (s.pc + 1) with
      | .error e => .error e
      | .ok () => (execute { s with opcode := fetch s }).map update_timers

/-- The loop `for (char b: buffer) { memory[i] = b; ++i; }` of `Chip_8::load_rom`; a byte of
the file is a number below 256 and is stored as such. -/
def load_loop : List Nat → Nat → Chip_8 → Except Stop Chip_8
  | [], _, s => .ok s
  | b :: rest, i, s =>
    match subscript 4096 i with
    | .error e => .error e
    | .ok () => load_loop rest (i + 1) { s with memory := upd s.memory i (b % 256) }

/-- Member function `Chip_8::load_rom` on the bytes of the file.  The `try` block holds the
copy loop from `rom_mem_pos = 0x200`; the handler runs only for a `std::out_of_range`
exception. -/
def load_rom (s : Chip_8) (buffer : List Nat) : Except Stop Chip_8 :=
  match load_loop buffer 0x200 s with
  | .error .out_of_range => .error .rom_too_large
  | .error e => .error e
  | .ok s1 => .ok s1


/-! ## Concrete machine states used as inputs -/

/-- A freshly constructed machine whose program is the word `hi lo` at `0x200`, with the
registers `V` given. -/
def program_state (hi lo : Nat) (V : Nat → Nat) : Chip_8 :=
  { Chip_8.new (fun _ => 0) [] with
    memory := upd (upd (Chip_8.new (fun _ => 0) []).memory 0x200 hi) 0x201 lo
    V := V }

/-- A freshly constructed machine with `call 0x300` (`2300`) at `0x200` and `return` (`00EE`)
at `0x300`. -/
def call_return_state : Chip_8 :=
  { Chip_8.new (fun _ => 0) [] with
    memory := upd (upd (upd (upd (Chip_8.new (fun _ => 0) []).memory 0x200 0x23) 0x201 0x00)
      0x300 0x00) 0x301 0xEE }

/-- The loop of `main` around `emulate_cycle`, for `n` cycles with no host event between
them; it ends at the first cycle that stops. -/
def cycles : Nat → Chip_8 → Except Stop Chip_8
  | 0, s => .ok s
  | n + 1, s =>
    match emulate_cycle s with
    | .error e => .error e
    | .ok s1 => cycles n s1

/-- The instruction words that the dispatch of `emulate_cycle` sends to a `default:` label,
by their hexadecimal digits: `0NNN` with low byte other than `E0`, `EE`; `8XYN` with `N` in
`8..D` or `N = F`; `EXNN` with `NN` other than `9E`, `A1`; `FXNN` with `NN` other than
`07, 0A, 15, 18, 1E, 29, 33, 55, 65`. -/
def unmapped (w : Nat) : Prop :=
  (w / 4096 = 0x0 ∧ w % 256 ≠ 0xE0 ∧ w % 256 ≠ 0xEE) ∨
  (w / 4096 = 0x8 ∧ ((8 ≤ w % 16 ∧ w % 16 ≤ 0xD) ∨ w % 16 = 0xF)) ∨
  (w / 4096 = 0xE ∧ w % 256 ≠ 0x9E ∧ w % 256 ≠ 0xA1) ∨
  (w / 4096 = 0xF ∧ w % 256 ≠ 0x07 ∧ w % 256 ≠ 0x0A ∧ w % 256 ≠ 0x15 ∧ w % 256 ≠ 0x18 ∧
    w % 256 ≠ 0x1E ∧ w % 256 ≠ 0x29 ∧ w % 256 ≠ 0x33 ∧ w % 256 ≠ 0x55 ∧ w % 256 ≠ 0x65)

/-- The index expression of `Chip_8::draw`, `(V[x] + i) % 64 + ((V[y] + row) % 32) * 64`,
for `V[x] = a` and `V[y] = b`. -/
def cell (a b row i : Nat) : Nat :=
  (a + i) % 64 + ((b + row) % 32) * 64

/-- The expression `(1 << (7 - i)) & sprite_row` of `Chip_8::draw`. -/
def sprite_pixel (sprite_row i : Nat) : Nat :=
  (1 <<< (7 - i)) &&& sprite_row

/-- The body of the inner loop of `Chip_8::draw` once its index and its sprite pixel are
computed: `p = (index, sprite_pixel)`. -/
def blit_step (s : Chip_8) (p : Nat × Nat) : Chip_8 :=
  let s1 : Chip_8 := if p.2 ≠ 0 ∧ s.gfx p.1 ≠ 0 then { s with V := upd s.V 0xF 1 } else s
  { s1 with gfx := upd s1.gfx p.1 (p.2 ^^^ s.gfx p.1) }

/-- The eight `(index, sprite_pixel)` pairs of one sprite row, in the order of the loop. -/
def row_pixels (a b sprite_row row : Nat) : List (Nat × Nat) :=
  (List.range 8).map (fun i => (cell a b row i, sprite_pixel sprite_row i))

/-- The `(index, sprite_pixel)` pairs of the rows listed, in the order of the loops. -/
def pixels (a b : Nat) (memory : Nat → Nat) (I : Nat) : List Nat → List (Nat × Nat)
  | [] => []
  | row :: rows => row_pixels a b (memory (I + row)) row ++ pixels a b memory I rows

/-- A machine about to execute `D011` with `V0 = 7`, `V1 = 0`, `I = 0x300`, the sprite byte
`0x80` at `0x300`, and a display whose only lit cell is cell `(7, 0)`, holding 1. -/
def collision_state : Chip_8 :=
  { Chip_8.new (fun _ => 0) [] with
    memory := upd (upd (upd (Chip_8.new (fun _ => 0) []).memory 0x200 0xD0) 0x201 0x11)
      0x300 0x80
    V := upd (fun _ => 0) 0 7
    I := 0x300
    gfx := upd (fun _ => 0) 7 1 }

/-- A ROM that draws the sprite byte `0x01` at `(0, 0)` and then the sprite byte `0x80` at
`(7, 0)`: `A20A D011 6007 A20B D011`, followed by the two sprite bytes. -/
def overlap_rom : List Nat :=
  [0xA2, 0x0A, 0xD0, 0x11, 0x60, 0x07, 0xA2, 0x0B, 0xD0, 0x11, 0x01, 0x80]

/-- A freshly constructed machine with `D011` at `0x200` and again at `0x202`, `I = 0x300`
and the sprite byte `0xFF` at `0x300`; `V0 = V1 = 0` and the display is blank. -/
def draw_twice_state : Chip_8 :=
  { Chip_8.new (fun _ => 0) [] with
    memory := upd (upd (upd (upd (upd (Chip_8.new (fun _ => 0) []).memory 0x200 0xD0) 0x201 0x11)
      0x202 0xD0) 0x203 0x11) 0x300 0xFF
    I := 0x300 }

/-- The parts of the state that the dispatch leaves alone, between the state `s` a handler
starts from and the state `t` it ends in: the count of `sound.play()` calls always, the delay
timer except in case `0x15` of group `F`, the sound timer except in case `0x18` of group `F`,
the display except in group `D` and in case `0xE0` of group `0`. -/
def dispatch_frame (s t : Chip_8) : Prop :=
  t.plays = s.plays ∧
  (¬ (s.opcode &&& 0xF000 = 0xF000 ∧ s.opcode &&& 0x00FF = 0x0015) →
    t.delay_timer = s.delay_timer) ∧
  (¬ (s.opcode &&& 0xF000 = 0xF000 ∧ s.opcode &&& 0x00FF = 0x0018) →
    t.sound_timer = s.sound_timer) ∧
  (¬ (s.opcode &&& 0xF000 = 0xD000) →
    ¬ (s.opcode &&& 0xF000 = 0x0000 ∧ s.opcode &&& 0x00FF = 0x00E0) → t.gfx = s.gfx)

/-- A machine that spins on `1200` (a jump to its own address `0x200`), `i` cycles after a
start with delay timer `d`, sound timer `snd` and no `sound.play()` call so far. -/
def spin_run (d snd : Nat) (i : Nat) : Chip_8 :=
  { program_state 0x12 0x00 (fun _ => 0) with
    opcode := if i = 0 then 0 else 0x1200
    delay_timer := d - i
    sound_timer := snd - i
    plays := if snd ≠ 0 ∧ snd ≤ i then 1 else 0 }

/-- A freshly constructed machine with `F155` at `0x200` and `F165` at `0x202`, `I = 0x300`,
`V0 = 0xAB` and `V1 = 0xCD`. -/
def store_load_state : Chip_8 :=
  { Chip_8.new (fun _ => 0) [] with
    memory := upd (upd (upd (upd (Chip_8.new (fun _ => 0) []).memory 0x200 0xF1) 0x201 0x55)
      0x202 0xF1) 0x203 0x65
    V := upd (upd (fun _ => 0) 0 0xAB) 1 0xCD
    I := 0x300 }

/-- The keyboard with exactly the key mapped to CHIP-8 key `k` held down. -/
def key_down (k : Nat) : Nat → Bool :=
  fun j => decide (j = k)

/-- A freshly constructed machine about to execute `F00A` (wait for a key into `V0`), with
the answers `events` of the host to come. -/
def wait_state (events : List (Option Event)) : Chip_8 :=
  { program_state 0xF0 0x0A (fun _ => 0) with events := events }

/-- A machine about to execute the word `01E0` with display cell 0 lit. -/
def word_01E0_state : Chip_8 :=
  { program_state 0x01 0xE0 (fun _ => 0) with gfx := upd (fun _ => 0) 0 1 }

/-! ## Decoding: the masks of `emulate_cycle` as digits of the opcode -/

theorem land_shiftRight (a b k : Nat) : (a &&& b) >>> k = (a >>> k) &&& (b >>> k) := by
  apply Nat.eq_of_testBit_eq
  intro i
  simp [Nat.testBit_shiftRight, Nat.testBit_and]

theorem land_0FFF (w : Nat) : w &&& 0x0FFF = w % 4096 :=
  Nat.and_pow_two_sub_one_eq_mod w 12

theorem land_00FF (w : Nat) : w &&& 0x00FF = w % 256 :=
  Nat.and_pow_two_sub_one_eq_mod w 8

theorem land_000F (w : Nat) : w &&& 0x000F = w % 16 :=
  Nat.and_pow_two_sub_one_eq_mod w 4

theorem land_0F00_shift (w : Nat) : (w &&& 0x0F00) >>> 8 = w / 256 % 16 := by
  rw [land_shiftRight]
  show (w >>> 8) &&& 15 = _
  rw [Nat.shiftRight_eq_div_pow]
  exact Nat.and_pow_two_sub_one_eq_mod _ 4

theorem land_00F0_shift (w : Nat) : (w &&& 0x00F0) >>> 4 = w / 16 % 16 := by
  rw [land_shiftRight]
  show (w >>> 4) &&& 15 = _
  rw [Nat.shiftRight_eq_div_pow]
  exact Nat.and_pow_two_sub_one_eq_mod _ 4

theorem land_F000 (w : Nat) : w &&& 0xF000 = w / 4096 % 16 * 4096 := by
  have h1 : (w &&& 0xF000) >>> 12 = w / 4096 % 16 := by
    rw [land_shiftRight]
    show (w >>> 12) &&& 15 = _
    rw [Nat.shiftRight_eq_div_pow]
    exact Nat.and_pow_two_sub_one_eq_mod _ 4
  have h2 : (w &&& 0xF000) % 4096 = 0 := by
    rw [← Nat.and_pow_two_sub_one_eq_mod (w &&& 0xF000) 12, Nat.and_assoc]
    show w &&& 0 = 0
    simp
  rw [Nat.shiftRight_eq_div_pow] at h1
  omega

/-- The fetch of `emulate_cycle` when both instruction bytes lie inside memory. -/
theorem emulate_cycle_fetch (s : Chip_8) (hpc : s.pc + 1 < 4096) :
    emulate_cycle s = (execute { s with opcode := fetch s }).map update_timers := by
  have h1 : ¬ s.pc ≥ 4096 := by omega
  have h2 : s.pc < 4096 := by omega
  simp [emulate_cycle, subscript, h1, h2, hpc]

/-- Dispatch of `8XY4`. -/
theorem execute_8xy4 (s : Chip_8) (x y : Nat) (hx : x < 16) (hy : y < 16)
    (hw : s.opcode = 0x8004 + 256 * x + 16 * y) :
    execute s = .ok (pc_add_2 (add_vx_to_vy s x y)) := by
  have hg : s.opcode &&& 0xF000 = 0x8000 := by rw [land_F000, hw]; omega
  have hn : s.opcode &&& 0x000F = 4 := by rw [land_000F, hw]; omega
  have hx1 : (s.opcode &&& 0x0F00) >>> 8 = x := by rw [land_0F00_shift, hw]; omega
  have hy1 : (s.opcode &&& 0x00F0) >>> 4 = y := by rw [land_00F0_shift, hw]; omega
  simp [execute, hg, hn, hx1, hy1]


/-! ## Small facts about array assignment and concrete inputs -/

theorem upd_same (a : Nat → Nat) (i v : Nat) : upd a i v i = v := by
  simp [upd]

theorem upd_other (a : Nat → Nat) (i v j : Nat) (h : j ≠ i) : upd a i v j = a j := by
  simp [upd, h]

theorem upd_lt (a : Nat → Nat) (i v n : Nat) (ha : ∀ j, a j < n) (hv : v < n) :
    ∀ j, upd a i v j < n := by
  intro j
  unfold upd
  split
  · exact hv
  · exact ha j

theorem program_state_pc (hi lo : Nat) (V : Nat → Nat) : (program_state hi lo V).pc = 0x200 :=
  rfl

theorem program_state_fetch (hi lo : Nat) (V : Nat → Nat) (hhi : hi < 256) (hlo : lo < 256) :
    fetch (program_state hi lo V) = 256 * hi + lo := by
  have h : (hi <<< 8) ||| lo = 256 * hi + lo := by
    rw [Nat.shiftLeft_eq, Nat.mul_comm]
    exact (Nat.mul_add_lt_is_or hlo hi).symm
  simp only [fetch, program_state, Chip_8.new, upd]
  simp
  rw [h]
  omega

/-! ## What the shared tail of a step leaves alone -/

@[simp] theorem update_timers_V (s : Chip_8) : (update_timers s).V = s.V := by
  unfold update_timers; dsimp only; split_ifs <;> rfl

@[simp] theorem update_timers_memory (s : Chip_8) : (update_timers s).memory = s.memory := by
  unfold update_timers; dsimp only; split_ifs <;> rfl

@[simp] theorem update_timers_I (s : Chip_8) : (update_timers s).I = s.I := by
  unfold update_timers; dsimp only; split_ifs <;> rfl

@[simp] theorem update_timers_pc (s : Chip_8) : (update_timers s).pc = s.pc := by
  unfold update_timers; dsimp only; split_ifs <;> rfl

@[simp] theorem update_timers_stack (s : Chip_8) : (update_timers s).stack = s.stack := by
  unfold update_timers; dsimp only; split_ifs <;> rfl

@[simp] theorem update_timers_sp (s : Chip_8) : (update_timers s).sp = s.sp := by
  unfold update_timers; dsimp only; split_ifs <;> rfl

@[simp] theorem update_timers_gfx (s : Chip_8) : (update_timers s).gfx = s.gfx := by
  unfold update_timers; dsimp only; split_ifs <;> rfl

@[simp] theorem pc_add_2_V (s : Chip_8) : (pc_add_2 s).V = s.V := rfl

@[simp] theorem pc_add_2_memory (s : Chip_8) : (pc_add_2 s).memory = s.memory := rfl

@[simp] theorem pc_add_2_I (s : Chip_8) : (pc_add_2 s).I = s.I := rfl

@[simp] theorem pc_add_2_pc (s : Chip_8) : (pc_add_2 s).pc = (s.pc + 2) % 65536 := rfl

@[simp] theorem pc_add_2_stack (s : Chip_8) : (pc_add_2 s).stack = s.stack := rfl

@[simp] theorem pc_add_2_sp (s : Chip_8) : (pc_add_2 s).sp = s.sp := rfl

@[simp] theorem pc_add_2_gfx (s : Chip_8) : (pc_add_2 s).gfx = s.gfx := rfl

/-! ## C1: add with carry (`8XY4`) -/

/-- The flag left by `add_vx_to_vy` when `x` is not the flag register. -/
theorem add_vx_to_vy_VF (s : Chip_8) (x y : Nat) (hxF : x ≠ 0xF) (hy : s.V y < 256) :
    (add_vx_to_vy s x y).V 0xF = (if s.V x + s.V y > 255 then 1 else 0) := by
  have hFx : (0xF : Nat) ≠ x := fun h => hxF h.symm
  by_cases hc : s.V x > 0xFF - s.V y
  · have h : s.V x + s.V y > 255 := by omega
    simp [add_vx_to_vy, hc, h, upd, hFx]
  · have h : ¬ s.V x + s.V y > 255 := by omega
    simp [add_vx_to_vy, hc, h, upd, hFx]

/-- The sum left by `add_vx_to_vy`: the addend is `V[y]` as read after the flag is written. -/
theorem add_vx_to_vy_Vx (s : Chip_8) (x y : Nat) (hxF : x ≠ 0xF) :
    (add_vx_to_vy s x y).V x
      = (s.V x + (if y = 0xF then (add_vx_to_vy s x y).V 0xF else s.V y)) % 256 := by
  have hFx : (0xF : Nat) ≠ x := fun h => hxF h.symm
  unfold add_vx_to_vy
  dsimp only
  split_ifs with hc hyF hyF <;> simp_all [upd]

/-- C1 (as amended): for register indices `x ≠ 0xF` and `y`, one step on `8XY4` sets `VF` to
1 exactly when the sum of the two registers as they were before exceeds 255, else to 0; and
for `y ≠ 0xF` it leaves `Vx` equal to that sum modulo 256. -/
theorem add_vx_to_vy_flag_then_sum (s : Chip_8) (x y : Nat) (hx : x < 16) (hy : y < 16)
    (hxF : x ≠ 0xF) (hV : ∀ i, s.V i < 256) (hpc : s.pc + 1 < 4096)
    (hw : fetch s = 0x8004 + 256 * x + 16 * y) :
    ∃ s1, emulate_cycle s = .ok s1 ∧
      s1.V 0xF = (if s.V x + s.V y > 255 then 1 else 0) ∧
      (y ≠ 0xF → s1.V x = (s.V x + s.V y) % 256) := by
  rw [emulate_cycle_fetch s hpc, execute_8xy4 _ x y hx hy hw]
  refine ⟨_, rfl, ?_, ?_⟩
  · simp only [update_timers_V, pc_add_2_V]
    exact add_vx_to_vy_VF _ x y hxF (hV y)
  · intro hyF
    simp only [update_timers_V, pc_add_2_V]
    rw [add_vx_to_vy_Vx _ x y hxF, if_neg hyF]

/-- Witness for C1: the step on `8014` with `V0 = 0xFF`, `V1 = 0x01` gives `V0 = 0x00` and
`VF = 1`. -/
theorem add_vx_to_vy_flag_then_sum_witness :
    ∃ s1, emulate_cycle (program_state 0x80 0x14 (upd (upd (fun _ => 0) 0 0xFF) 1 0x01)) = .ok s1 ∧
      s1.V 0xF = 1 ∧ s1.V 0 = 0 := by
  obtain ⟨s1, h, hF, h0⟩ := add_vx_to_vy_flag_then_sum
    (program_state 0x80 0x14 (upd (upd (fun _ => 0) 0 0xFF) 1 0x01)) 0 1
    (by decide) (by decide) (by decide)
    (upd_lt _ _ _ _ (upd_lt _ _ _ _ (fun _ => by decide) (by decide)) (by decide))
    (by decide) (program_state_fetch _ _ _ (by decide) (by decide))
  refine ⟨s1, h, ?_, ?_⟩
  · rw [hF]; decide
  · rw [h0 (by decide)]; decide

/-- C1 as stated fails for `y = 0xF`: with `V0 = 1`, `VF = 5` the step on `80F4` leaves
`V0 = 1`, not `(1 + 5) mod 256 = 6`: the flag (here 0, the carry of `1 + 5`) is stored in `VF`
before `V[x] += V[y]` reads it. -/
theorem add_vx_to_vy_flag_operand_clobbered :
    ∃ s1, emulate_cycle (program_state 0x80 0xF4 (upd (upd (fun _ => 0) 0 1) 0xF 5)) = .ok s1 ∧
      (program_state 0x80 0xF4 (upd (upd (fun _ => 0) 0 1) 0xF 5)).V 0 = 1 ∧
      (program_state 0x80 0xF4 (upd (upd (fun _ => 0) 0 1) 0xF 5)).V 0xF = 5 ∧
      s1.V 0 = 1 ∧ s1.V 0 ≠ (1 + 5) % 256 := by
  rw [emulate_cycle_fetch _ (by decide),
    execute_8xy4 _ 0 0xF (by decide) (by decide) (program_state_fetch _ _ _ (by decide) (by decide))]
  refine ⟨_, rfl, by decide, by decide, ?_, ?_⟩ <;>
    simp [add_vx_to_vy, program_state, upd]

/-! ## C2: subtract (`8XY5`) -/

/-- Dispatch of `8XY5`. -/
theorem execute_8xy5 (s : Chip_8) (x y : Nat) (hx : x < 16) (hy : y < 16)
    (hw : s.opcode = 0x8005 + 256 * x + 16 * y) :
    execute s = .ok (pc_add_2 (sub_vy_from_vx s x y)) := by
  have hg : s.opcode &&& 0xF000 = 0x8000 := by rw [land_F000, hw]; omega
  have hn : s.opcode &&& 0x000F = 5 := by rw [land_000F, hw]; omega
  have hx1 : (s.opcode &&& 0x0F00) >>> 8 = x := by rw [land_0F00_shift, hw]; omega
  have hy1 : (s.opcode &&& 0x00F0) >>> 4 = y := by rw [land_00F0_shift, hw]; omega
  simp [execute, hg, hn, hx1, hy1]

/-- The flag left by `sub_vy_from_vx`: the comparison of the source is strict. -/
theorem sub_vy_from_vx_VF (s : Chip_8) (x y : Nat) (hxF : x ≠ 0xF) :
    (sub_vy_from_vx s x y).V 0xF = (if s.V x > s.V y then 1 else 0) := by
  unfold sub_vy_from_vx
  dsimp only
  split_ifs with hc <;> simp_all [upd] <;> omega

/-- The difference left by `sub_vy_from_vx` when neither operand is the flag register. -/
theorem sub_vy_from_vx_Vx (s : Chip_8) (x y : Nat) (hxF : x ≠ 0xF) (hyF : y ≠ 0xF) :
    ((sub_vy_from_vx s x y).V x : Int) = ((s.V x : Int) - (s.V y : Int)) % 256 := by
  unfold sub_vy_from_vx
  dsimp only
  split_ifs with hc <;> simp_all [upd] <;> omega

/-- C2 (as amended): for register indices `x`, `y` other than `0xF`, one step on `8XY5`
leaves `Vx = (a - b) mod 256` for the values `a = Vx`, `b = Vy` held before, and `VF = 1` if
and only if `a > b`; in particular `VF = 0` when `a = b`. -/
theorem sub_vy_from_vx_strict_flag (s : Chip_8) (x y : Nat) (hx : x < 16) (hy : y < 16)
    (hxF : x ≠ 0xF) (hyF : y ≠ 0xF) (hpc : s.pc + 1 < 4096)
    (hw : fetch s = 0x8005 + 256 * x + 16 * y) :
    ∃ s1, emulate_cycle s = .ok s1 ∧
      (s1.V x : Int) = ((s.V x : Int) - (s.V y : Int)) % 256 ∧
      (s1.V 0xF = 1 ↔ s.V x > s.V y) ∧ (s1.V 0xF = 0 ↔ ¬ s.V x > s.V y) := by
  rw [emulate_cycle_fetch s hpc, execute_8xy5 _ x y hx hy hw]
  refine ⟨_, rfl, ?_, ?_, ?_⟩
  · simp only [update_timers_V, pc_add_2_V]
    exact sub_vy_from_vx_Vx _ x y hxF hyF
  · simp only [update_timers_V, pc_add_2_V]
    rw [sub_vy_from_vx_VF _ x y hxF]
    dsimp only
    split_ifs with h <;> simp [h]
  · simp only [update_timers_V, pc_add_2_V]
    rw [sub_vy_from_vx_VF _ x y hxF]
    dsimp only
    split_ifs with h <;> simp [h]

/-- Witness for C2: `V0 = 0x03`, `V1 = 0x05`, instruction `8015` gives `V0 = 0xFE`, `VF = 0`. -/
theorem sub_vy_from_vx_strict_flag_witness :
    ∃ s1, emulate_cycle (program_state 0x80 0x15 (upd (upd (fun _ => 0) 0 0x03) 1 0x05)) = .ok s1 ∧
      s1.V 0 = 0xFE ∧ s1.V 0xF = 0 := by
  obtain ⟨s1, h, h0, _, hF⟩ := sub_vy_from_vx_strict_flag
    (program_state 0x80 0x15 (upd (upd (fun _ => 0) 0 0x03) 1 0x05)) 0 1
    (by decide) (by decide) (by decide) (by decide) (by decide)
    (program_state_fetch _ _ _ (by decide) (by decide))
  refine ⟨s1, h, ?_, hF.2 (by decide)⟩
  have e : ((program_state 0x80 0x15 (upd (upd (fun _ => 0) 0 0x03) 1 0x05)).V 0 : Int) = 3 := rfl
  have e1 : ((program_state 0x80 0x15 (upd (upd (fun _ => 0) 0 0x03) 1 0x05)).V 1 : Int) = 5 := rfl
  rw [e, e1] at h0
  omega

/-- C2 as stated fails for equal operands: with `V0 = V1 = 7` the instruction `8015` leaves
`V0 = 0` and `VF = 0`, although `a >= b` holds. -/
theorem sub_vy_from_vx_equal_operands :
    ∃ s1, emulate_cycle (program_state 0x80 0x15 (upd (upd (fun _ => 0) 0 7) 1 7)) = .ok s1 ∧
      (program_state 0x80 0x15 (upd (upd (fun _ => 0) 0 7) 1 7)).V 0 = 7 ∧
      (program_state 0x80 0x15 (upd (upd (fun _ => 0) 0 7) 1 7)).V 1 = 7 ∧
      s1.V 0 = 0 ∧ s1.V 0xF = 0 := by
  rw [emulate_cycle_fetch _ (by decide),
    execute_8xy5 _ 0 1 (by decide) (by decide) (program_state_fetch _ _ _ (by decide) (by decide))]
  refine ⟨_, rfl, by decide, by decide, ?_, ?_⟩ <;>
    simp [sub_vy_from_vx, program_state, upd]

/-! ## C3: reverse subtract (`8XY7`) -/

/-- Dispatch of `8XY7`. -/
theorem execute_8xy7 (s : Chip_8) (x y : Nat) (hx : x < 16) (hy : y < 16)
    (hw : s.opcode = 0x8007 + 256 * x + 16 * y) :
    execute s = .ok (pc_add_2 (sub_vx_from_vy s x y)) := by
  have hg : s.opcode &&& 0xF000 = 0x8000 := by rw [land_F000, hw]; omega
  have hn : s.opcode &&& 0x000F = 7 := by rw [land_000F, hw]; omega
  have hx1 : (s.opcode &&& 0x0F00) >>> 8 = x := by rw [land_0F00_shift, hw]; omega
  have hy1 : (s.opcode &&& 0x00F0) >>> 4 = y := by rw [land_00F0_shift, hw]; omega
  simp [execute, hg, hn, hx1, hy1]

/-- The flag left by `sub_vx_from_vy`: the comparison of the source is strict. -/
theorem sub_vx_from_vy_VF (s : Chip_8) (x y : Nat) (hxF : x ≠ 0xF) :
    (sub_vx_from_vy s x y).V 0xF = (if s.V y > s.V x then 1 else 0) := by
  unfold sub_vx_from_vy
  dsimp only
  split_ifs with hc <;> simp_all [upd] <;> omega

/-- The difference left by `sub_vx_from_vy` when neither operand is the flag register. -/
theorem sub_vx_from_vy_Vx (s : Chip_8) (x y : Nat) (hxF : x ≠ 0xF) (hyF : y ≠ 0xF) :
    ((sub_vx_from_vy s x y).V x : Int) = ((s.V y : Int) - (s.V x : Int)) % 256 := by
  unfold sub_vx_from_vy
  dsimp only
  split_ifs with hc <;> simp_all [upd] <;> omega

/-- C3 (as amended): for register indices `x`, `y` other than `0xF`, one step on `8XY7`
leaves `Vx = (b - a) mod 256` for the values `a = Vx`, `b = Vy` held before, and `VF = 1` if
and only if `b > a`; in particular `VF = 0` when `a = b`. -/
theorem sub_vx_from_vy_strict_flag (s : Chip_8) (x y : Nat) (hx : x < 16) (hy : y < 16)
    (hxF : x ≠ 0xF) (hyF : y ≠ 0xF) (hpc : s.pc + 1 < 4096)
    (hw : fetch s = 0x8007 + 256 * x + 16 * y) :
    ∃ s1, emulate_cycle s = .ok s1 ∧
      (s1.V x : Int) = ((s.V y : Int) - (s.V x : Int)) % 256 ∧
      (s1.V 0xF = 1 ↔ s.V y > s.V x) ∧ (s1.V 0xF = 0 ↔ ¬ s.V y > s.V x) := by
  rw [emulate_cycle_fetch s hpc, execute_8xy7 _ x y hx hy hw]
  refine ⟨_, rfl, ?_, ?_, ?_⟩
  · simp only [update_timers_V, pc_add_2_V]
    exact sub_vx_from_vy_Vx _ x y hxF hyF
  · simp only [update_timers_V, pc_add_2_V]
    rw [sub_vx_from_vy_VF _ x y hxF]
    dsimp only
    split_ifs with h <;> simp [h]
  · simp only [update_timers_V, pc_add_2_V]
    rw [sub_vx_from_vy_VF _ x y hxF]
    dsimp only
    split_ifs with h <;> simp [h]

/-- Witness for C3: `V0 = 0x03`, `V1 = 0x05`, instruction `8017` gives `V0 = 0x02`, `VF = 1`. -/
theorem sub_vx_from_vy_strict_flag_witness :
    ∃ s1, emulate_cycle (program_state 0x80 0x17 (upd (upd (fun _ => 0) 0 0x03) 1 0x05)) = .ok s1 ∧
      s1.V 0 = 0x02 ∧ s1.V 0xF = 1 := by
  obtain ⟨s1, h, h0, hF, _⟩ := sub_vx_from_vy_strict_flag
    (program_state 0x80 0x17 (upd (upd (fun _ => 0) 0 0x03) 1 0x05)) 0 1
    (by decide) (by decide) (by decide) (by decide) (by decide)
    (program_state_fetch _ _ _ (by decide) (by decide))
  refine ⟨s1, h, ?_, hF.2 (by decide)⟩
  have e : ((program_state 0x80 0x17 (upd (upd (fun _ => 0) 0 0x03) 1 0x05)).V 0 : Int) = 3 := rfl
  have e1 : ((program_state 0x80 0x17 (upd (upd (fun _ => 0) 0 0x03) 1 0x05)).V 1 : Int) = 5 := rfl
  rw [e, e1] at h0
  omega

/-- C3 as stated fails for equal operands: with `V0 = V1 = 7` the instruction `8017` leaves
`V0 = 0` and `VF = 0`, although `b >= a` holds. -/
theorem sub_vx_from_vy_equal_operands :
    ∃ s1, emulate_cycle (program_state 0x80 0x17 (upd (upd (fun _ => 0) 0 7) 1 7)) = .ok s1 ∧
      (program_state 0x80 0x17 (upd (upd (fun _ => 0) 0 7) 1 7)).V 0 = 7 ∧
      (program_state 0x80 0x17 (upd (upd (fun _ => 0) 0 7) 1 7)).V 1 = 7 ∧
      s1.V 0 = 0 ∧ s1.V 0xF = 0 := by
  rw [emulate_cycle_fetch _ (by decide),
    execute_8xy7 _ 0 1 (by decide) (by decide) (program_state_fetch _ _ _ (by decide) (by decide))]
  refine ⟨_, rfl, by decide, by decide, ?_, ?_⟩ <;>
    simp [sub_vx_from_vy, program_state, upd]

/-! ## C10: binary-coded decimal (`FX33`) -/

/-- Dispatch of `FX33`. -/
theorem execute_fx33 (s : Chip_8) (x : Nat) (hx : x < 16)
    (hw : s.opcode = 0xF033 + 256 * x) :
    execute s = (set_i_to_bcd_of_vx s x).map pc_add_2 := by
  have hg : s.opcode &&& 0xF000 = 0xF000 := by rw [land_F000, hw]; omega
  have hn : s.opcode &&& 0x00FF = 0x33 := by rw [land_00FF, hw]; omega
  have hx1 : (s.opcode &&& 0x0F00) >>> 8 = x := by rw [land_0F00_shift, hw]; omega
  simp [execute, hg, hn, hx1]

/-- The three stores of `set_i_to_bcd_of_vx` when `I .. I+2` lie inside memory. -/
theorem set_i_to_bcd_of_vx_ok (s : Chip_8) (x : Nat) (hI : s.I + 2 < 4096) :
    set_i_to_bcd_of_vx s x = .ok { s with
      memory := upd (upd (upd s.memory s.I ((s.V x / 100) % 10)) (s.I + 1) ((s.V x / 10) % 10))
        (s.I + 2) ((s.V x / 1) % 10) } := by
  have h0 : s.I < 4096 := by omega
  have h1 : s.I + 1 < 4096 := by omega
  simp [set_i_to_bcd_of_vx, subscript, h0, h1, hI]

/-- C10: for a register index `x`, a byte `v = Vx` and `I + 2 < 4096`, one step on `FX33`
stores `v / 100`, `(v / 10) mod 10`, `v mod 10` at `I`, `I+1`, `I+2`; each is at most 9, they
recompose to `v`, and every other memory byte, every register and `I` are unchanged. -/
theorem set_i_to_bcd_of_vx_digits (s : Chip_8) (x : Nat) (hx : x < 16) (hv : s.V x < 256)
    (hI : s.I + 2 < 4096) (hpc : s.pc + 1 < 4096) (hw : fetch s = 0xF033 + 256 * x) :
    ∃ s1, emulate_cycle s = .ok s1 ∧
      s1.memory s.I = s.V x / 100 ∧
      s1.memory (s.I + 1) = (s.V x / 10) % 10 ∧
      s1.memory (s.I + 2) = s.V x % 10 ∧
      s1.memory s.I ≤ 9 ∧ s1.memory (s.I + 1) ≤ 9 ∧ s1.memory (s.I + 2) ≤ 9 ∧
      100 * s1.memory s.I + 10 * s1.memory (s.I + 1) + s1.memory (s.I + 2) = s.V x ∧
      (∀ a, a ≠ s.I → a ≠ s.I + 1 → a ≠ s.I + 2 → s1.memory a = s.memory a) ∧
      s1.V = s.V ∧ s1.I = s.I := by
  rw [emulate_cycle_fetch s hpc, execute_fx33 _ x hx hw,
    set_i_to_bcd_of_vx_ok { s with opcode := fetch s } x hI]
  have m0 : upd (upd (upd s.memory s.I ((s.V x / 100) % 10)) (s.I + 1) ((s.V x / 10) % 10))
      (s.I + 2) ((s.V x / 1) % 10) s.I = s.V x / 100 := by
    simp [upd]; omega
  have m1 : upd (upd (upd s.memory s.I ((s.V x / 100) % 10)) (s.I + 1) ((s.V x / 10) % 10))
      (s.I + 2) ((s.V x / 1) % 10) (s.I + 1) = (s.V x / 10) % 10 := by
    simp [upd]
  have m2 : upd (upd (upd s.memory s.I ((s.V x / 100) % 10)) (s.I + 1) ((s.V x / 10) % 10))
      (s.I + 2) ((s.V x / 1) % 10) (s.I + 2) = s.V x % 10 := by
    simp [upd]
  refine ⟨_, rfl, ?_, ?_, ?_, ?_, ?_, ?_, ?_, ?_, ?_, ?_⟩ <;>
    simp only [update_timers_memory, pc_add_2_memory, update_timers_V, pc_add_2_V,
      update_timers_I, pc_add_2_I]
  · exact m0
  · exact m1
  · exact m2
  · rw [m0]; omega
  · rw [m1]; omega
  · rw [m2]; omega
  · rw [m0, m1, m2]; omega
  · intro a h0 h1 h2
    simp [upd, h0, h1, h2]

/-- Witness for C10: `V2 = 234`, `I = 0x300`, instruction `F233` stores 2, 3, 4. -/
theorem set_i_to_bcd_of_vx_digits_witness :
    ∃ s1, emulate_cycle { program_state 0xF2 0x33 (upd (fun _ => 0) 2 234) with I := 0x300 }
        = .ok s1 ∧
      s1.memory 0x300 = 2 ∧ s1.memory 0x301 = 3 ∧ s1.memory 0x302 = 4 := by
  obtain ⟨s1, h, h0, h1, h2, _⟩ := set_i_to_bcd_of_vx_digits
    { program_state 0xF2 0x33 (upd (fun _ => 0) 2 234) with I := 0x300 } 2
    (by decide) (by decide) (by decide) (by decide)
    (program_state_fetch 0xF2 0x33 (upd (fun _ => 0) 2 234) (by decide) (by decide))
  exact ⟨s1, h, h0, h1, h2⟩

/-! ## C7: call and return (`2NNN`, `00EE`) -/

/-- Dispatch of `2NNN`. -/
theorem execute_2nnn (s : Chip_8) (A : Nat) (hA : A < 4096) (hw : s.opcode = 0x2000 + A) :
    execute s = call s A := by
  have hg : s.opcode &&& 0xF000 = 0x2000 := by rw [land_F000, hw]; omega
  have ha : s.opcode &&& 0x0FFF = A := by rw [land_0FFF, hw]; omega
  simp [execute, hg, ha]

/-- Dispatch of `00EE`. -/
theorem execute_00ee (s : Chip_8) (hw : s.opcode = 0x00EE) : execute s = _return s := by
  have hg : s.opcode &&& 0xF000 = 0x0000 := by rw [land_F000, hw]
  have hn : s.opcode &&& 0x00FF = 0xEE := by rw [land_00FF, hw]
  simp [execute, hg, hn]

/-- The handler `call` below the stack limit. -/
theorem call_ok (s : Chip_8) (A : Nat) (hsp : s.sp ≤ 15) :
    call s A = .ok { s with stack := upd s.stack s.sp ((s.pc + 2) % 65536)
                            sp := (s.sp + 1) % 256
                            pc := A } := by
  have h : s.sp < 16 := by omega
  simp [call, subscript, h]

/-- The handler `_return` with at least one and at most sixteen addresses on the stack. -/
theorem _return_ok (s : Chip_8) (h1 : 1 ≤ s.sp) (h2 : s.sp ≤ 16) :
    _return s = .ok { s with sp := s.sp - 1, pc := s.stack (s.sp - 1) } := by
  have e : (s.sp + 255) % 256 = s.sp - 1 := by omega
  have h : s.sp - 1 < 16 := by omega
  simp [_return, subscript, e, h]

/-- C7: from a state with `sp <= 15` and program counter `P`, a step on `2NNN` with
`NNN = A` stores `P + 2` in stack slot `sp`, makes the stack pointer `sp + 1` and sets
`pc = A`; a step on `00EE` from the resulting state sets `pc = P + 2` and makes the stack
pointer `sp` again. -/
theorem call_return_round_trip (s : Chip_8) (A : Nat) (hsp : s.sp ≤ 15) (hA : A < 4096)
    (hpc : s.pc + 1 < 4096) (hw : fetch s = 0x2000 + A) :
    ∃ s1, emulate_cycle s = .ok s1 ∧
      s1.stack s.sp = s.pc + 2 ∧ s1.sp = s.sp + 1 ∧ s1.pc = A ∧
      (A + 1 < 4096 → fetch s1 = 0x00EE →
        ∃ s2, emulate_cycle s1 = .ok s2 ∧ s2.pc = s.pc + 2 ∧ s2.sp = s.sp) := by
  have e1 : (s.pc + 2) % 65536 = s.pc + 2 := by omega
  have e2 : (s.sp + 1) % 256 = s.sp + 1 := by omega
  rw [emulate_cycle_fetch s hpc, execute_2nnn _ A hA hw,
    call_ok { s with opcode := fetch s } A hsp]
  refine ⟨_, rfl, ?_, ?_, ?_, ?_⟩
  · simp [upd, e1]
  · simp [e2]
  · simp
  · intro hA1 hret
    rw [emulate_cycle_fetch _ (by simpa using hA1), execute_00ee _ hret,
      _return_ok _ (by simp [e2]) (by simp [e2]; omega)]
    refine ⟨_, rfl, ?_, ?_⟩
    · simp [upd, e1, e2]
    · simp [e2]

/-- Witness for C7: `call 0x300` at `0x200` followed by `return` at `0x300`. -/
theorem call_return_round_trip_witness :
    ∃ s1 s2, emulate_cycle call_return_state = .ok s1 ∧
      s1.stack 0 = 0x202 ∧ s1.sp = 1 ∧ s1.pc = 0x300 ∧
      emulate_cycle s1 = .ok s2 ∧ s2.pc = 0x202 ∧ s2.sp = 0 := by
  obtain ⟨s1, h, hst, hsp, hpc, hret⟩ := call_return_round_trip call_return_state 0x300
    (by decide) (by decide) (by decide) (by decide)
  have hf : fetch s1 = 0x00EE := by
    have hm : s1.memory = call_return_state.memory := by
      rw [emulate_cycle_fetch _ (by decide), execute_2nnn _ 0x300 (by decide) (by decide),
        call_ok _ _ (by decide)] at h
      cases h
      rfl
    simp only [fetch, hm, hpc]
    decide
  obtain ⟨s2, h2, hpc2, hsp2⟩ := hret (by decide) hf
  exact ⟨s1, s2, h, hst, hsp, hpc, h2, hpc2, hsp2⟩

/-! ## C8: a call with sixteen addresses on the stack -/

/-- The handler of `call` for `std::out_of_range` is never entered: `call` does not end in the
stack-overflow diagnostic from any state. -/
theorem call_never_reports (s : Chip_8) (A : Nat) : call s A ≠ .error .stack_overflow := by
  unfold call subscript
  split_ifs <;> simp

/-- The handler `call` at or above the stack limit: the store `stack[sp]` is outside the
array. -/
theorem call_out_of_bounds (s : Chip_8) (A : Nat) (hsp : 16 ≤ s.sp) :
    call s A = .error .out_of_bounds := by
  have h : ¬ s.sp < 16 := by omega
  simp [call, subscript, h]

/-- One step on `2NNN` with the stack pointer at 16 or above. -/
theorem emulate_cycle_call_full (s : Chip_8) (A : Nat) (hsp : 16 ≤ s.sp) (hA : A < 4096)
    (hpc : s.pc + 1 < 4096) (hw : fetch s = 0x2000 + A) :
    emulate_cycle s = .error .out_of_bounds := by
  rw [emulate_cycle_fetch s hpc, execute_2nnn _ A hA hw,
    call_out_of_bounds { s with opcode := fetch s } A hsp]
  rfl

/-- One step on `2NNN` with the stack pointer at most 15, for a program that calls itself:
the memory is unchanged, `pc` is the target and the stack pointer is one more. -/
theorem emulate_cycle_call_step (s : Chip_8) (A : Nat) (hsp : s.sp ≤ 15) (hA : A < 4096)
    (hpc : s.pc + 1 < 4096) (hw : fetch s = 0x2000 + A) :
    ∃ s1, emulate_cycle s = .ok s1 ∧ s1.memory = s.memory ∧ s1.pc = A ∧ s1.sp = s.sp + 1 := by
  have e2 : (s.sp + 1) % 256 = s.sp + 1 := by omega
  rw [emulate_cycle_fetch s hpc, execute_2nnn _ A hA hw,
    call_ok { s with opcode := fetch s } A hsp]
  exact ⟨_, rfl, by simp, by simp, by simp [e2]⟩

/-- A program that keeps calling address `A`, where the call instruction itself sits: after
`k <= 16` cycles the stack pointer is `k` more and the machine is again at `A`. -/
theorem cycles_self_call (A : Nat) (hA : A + 1 < 4096) :
    ∀ (k : Nat) (s : Chip_8), s.pc = A → fetch s = 0x2000 + A → s.sp + k ≤ 16 →
      ∃ s1, cycles k s = .ok s1 ∧ s1.memory = s.memory ∧ s1.pc = A ∧ s1.sp = s.sp + k := by
  intro k
  induction k with
  | zero => intro s hp _ _; exact ⟨s, rfl, rfl, hp, rfl⟩
  | succ k ih =>
    intro s hp hw hk
    obtain ⟨s1, h1, hm, hp1, hs1⟩ :=
      emulate_cycle_call_step s A (by omega) (by omega) (by omega) hw
    have hw1 : fetch s1 = 0x2000 + A := by
      rw [← hw]; simp only [fetch, hm, hp1, hp]
    obtain ⟨s2, h2, hm2, hp2, hs2⟩ := ih s1 hp1 hw1 (by omega)
    refine ⟨s2, ?_, by rw [hm2, hm], hp2, by omega⟩
    simp only [cycles, h1]
    exact h2

/-- The composition of two runs of `cycles`. -/
theorem cycles_add (m n : Nat) (s s1 : Chip_8) (h : cycles m s = .ok s1) :
    cycles (m + n) s = cycles n s1 := by
  induction m generalizing s with
  | zero => simp only [cycles] at h; cases h; simp
  | succ m ih =>
    rw [Nat.add_right_comm]
    simp only [cycles] at h ⊢
    cases he : emulate_cycle s with
    | error e => rw [he] at h; cases h
    | ok s2 => rw [he] at h; simp only; exact ih s2 h

/-- C8, the code at the failing input: a fresh machine whose program is `2200` (a call to
its own address `0x200`) runs sixteen cycles, which leave sixteen return addresses on the
stack, and its seventeenth cycle ends in the undefined store `stack[16]`: the outcome is not
the stack-overflow diagnostic. -/
theorem seventeenth_call_not_reported :
    (∃ s16, cycles 16 (program_state 0x22 0x00 (fun _ => 0)) = .ok s16 ∧ s16.sp = 16 ∧
      emulate_cycle s16 = .error .out_of_bounds) ∧
    cycles 17 (program_state 0x22 0x00 (fun _ => 0)) = .error .out_of_bounds ∧
    cycles 17 (program_state 0x22 0x00 (fun _ => 0)) ≠ .error .stack_overflow := by
  have hw : fetch (program_state 0x22 0x00 (fun _ => 0)) = 0x2000 + 0x200 :=
    program_state_fetch _ _ _ (by decide) (by decide)
  obtain ⟨s16, h16, hm, hp, hs⟩ :=
    cycles_self_call 0x200 (by decide) 16 (program_state 0x22 0x00 (fun _ => 0)) rfl hw
      (by decide)
  have hw16 : fetch s16 = 0x2000 + 0x200 := by
    rw [← hw]; simp only [fetch, hm, hp]; rfl
  have hsp : s16.sp = 16 := by rw [hs]; rfl
  have hlast : emulate_cycle s16 = .error .out_of_bounds :=
    emulate_cycle_call_full s16 0x200 (by omega) (by decide) (by omega) hw16
  have h17 : cycles 17 (program_state 0x22 0x00 (fun _ => 0)) = .error .out_of_bounds := by
    rw [cycles_add 16 1 _ s16 h16]
    simp only [cycles, hlast]
  exact ⟨⟨s16, h16, hsp, hlast⟩, h17, by rw [h17]; simp⟩

/-! ## C9: the size of a ROM -/

/-- The copy loop of `load_rom` runs past the end of memory when the bytes do not fit: it
ends in the undefined store `memory[4096]`. -/
theorem load_loop_overrun :
    ∀ (buffer : List Nat) (i : Nat) (s : Chip_8), i ≤ 4096 → i + buffer.length > 4096 →
      load_loop buffer i s = .error .out_of_bounds := by
  intro buffer
  induction buffer with
  | nil => intro i s h1 h2; simp at h2; omega
  | cons b rest ih =>
    intro i s h1 h2
    by_cases hi : i < 4096
    · simp only [load_loop, subscript, hi, if_true]
      exact ih (i + 1) _ (by omega) (by simp at h2; omega)
    · simp [load_loop, subscript, hi]

/-- The copy loop of `load_rom` when the bytes fit: it ends normally, byte `k` is stored at
`i + k`, and nothing else changes. -/
theorem load_loop_fits :
    ∀ (buffer : List Nat) (i : Nat) (s : Chip_8), i + buffer.length ≤ 4096 →
      ∃ s1, load_loop buffer i s = .ok s1 ∧
        (∀ k, k < buffer.length → s1.memory (i + k) = buffer.getD k 0 % 256) ∧
        (∀ a, a < i ∨ i + buffer.length ≤ a → s1.memory a = s.memory a) ∧
        s1.V = s.V ∧ s1.pc = s.pc ∧ s1.I = s.I ∧ s1.gfx = s.gfx := by
  intro buffer
  induction buffer with
  | nil =>
    intro i s _
    exact ⟨s, rfl, by intro k hk; simp at hk, by intro a _; rfl, rfl, rfl, rfl, rfl⟩
  | cons b rest ih =>
    intro i s h
    have hlen : (b :: rest).length = rest.length + 1 := rfl
    have hi : i < 4096 := by omega
    obtain ⟨s1, h1, hk1, ha1, hV, hp, hI, hg⟩ :=
      ih (i + 1) { s with memory := upd s.memory i (b % 256) } (by omega)
    refine ⟨s1, ?_, ?_, ?_, hV, hp, hI, hg⟩
    · simp only [load_loop, subscript, hi, if_true]
      exact h1
    · intro k hk
      cases k with
      | zero =>
        rw [ha1 (i + 0) (Or.inl (by omega))]
        simp [upd]
      | succ k =>
        have := hk1 k (by omega)
        rw [show i + (k + 1) = i + 1 + k by omega, this]
        simp
    · intro a ha
      rw [ha1 a (by omega)]
      have : a ≠ i := by omega
      simp [upd, this]

/-- The handler of `load_rom` for `std::out_of_range` is never entered: `load_rom` does not
end in the rom-too-large diagnostic for any file. -/
theorem load_rom_never_reports (s : Chip_8) (buffer : List Nat) :
    load_rom s buffer ≠ .error .rom_too_large := by
  have key : ∀ (buffer : List Nat) (i : Nat) (s : Chip_8) (e : Stop),
      load_loop buffer i s = .error e → e = .out_of_bounds := by
    intro buffer
    induction buffer with
    | nil => intro i s e h; simp [load_loop] at h
    | cons b rest ih =>
      intro i s e h
      unfold load_loop subscript at h
      split_ifs at h
      · exact ih _ _ e h
      · simp at h; exact h.symm
  unfold load_rom
  split
  · next h => have := key buffer 0x200 s _ h; simp at this
  · next e _ h => have := key buffer 0x200 s _ h; subst this; simp
  · simp

/-- A ROM of at most 3584 bytes is loaded without a fatal outcome, byte `k` at
`0x200 + k`. -/
theorem load_rom_fits (s : Chip_8) (buffer : List Nat) (hlen : buffer.length ≤ 3584)
    (hb : ∀ b ∈ buffer, b < 256) :
    ∃ s1, load_rom s buffer = .ok s1 ∧
      ∀ k, k < buffer.length → s1.memory (0x200 + k) = buffer.getD k 0 := by
  obtain ⟨s1, h1, hk, _⟩ := load_loop_fits buffer 0x200 s (by omega)
  refine ⟨s1, by simp [load_rom, h1], ?_⟩
  intro k hlt
  rw [hk k hlt]
  have hmem : buffer.getD k 0 ∈ buffer := by
    rw [List.getD_eq_getElem _ _ hlt]
    exact List.getElem_mem hlt
  exact Nat.mod_eq_of_lt (hb _ hmem)

/-- C9, the code on a ROM that is too long: for every byte sequence longer than 3584 bytes
`load_rom` ends in the undefined store `memory[4096]`, not in the rom-too-large
diagnostic. -/
theorem load_rom_too_long_not_reported (s : Chip_8) (buffer : List Nat)
    (hlen : buffer.length > 3584) :
    load_rom s buffer = .error .out_of_bounds ∧ load_rom s buffer ≠ .error .rom_too_large := by
  have h := load_loop_overrun buffer 0x200 s (by decide) (by omega)
  exact ⟨by simp [load_rom, h], load_rom_never_reports s buffer⟩

/-- Witness for C9: a ROM of 3585 zero bytes loaded into a fresh machine. -/
theorem load_rom_too_long_not_reported_witness :
    load_rom (Chip_8.new (fun _ => 0) []) (List.replicate 3585 0) = .error .out_of_bounds ∧
    load_rom (Chip_8.new (fun _ => 0) []) (List.replicate 3585 0) ≠ .error .rom_too_large :=
  load_rom_too_long_not_reported _ _ (by rw [List.length_replicate]; omega)

/-! ## C6: instruction words without a handler -/

theorem fetch_lt (s : Chip_8) : fetch s < 65536 := by
  unfold fetch
  omega

/-- The dispatch sends every unmapped word to a `default:` label. -/
theorem execute_unmapped (s : Chip_8) (h : unmapped s.opcode) :
    execute s = .error (.unknown_opcode s.opcode) := by
  unfold unmapped at h
  have eF := land_F000 s.opcode
  have eB := land_00FF s.opcode
  have eN := land_000F s.opcode
  rcases h with ⟨hg, h1, h2⟩ | ⟨hg, hn⟩ | ⟨hg, h1, h2⟩ | ⟨hg, h1, h2, h3, h4, h5, h6, h7, h8, h9⟩
  · have g : s.opcode &&& 0xF000 = 0x0000 := by omega
    have b1 : s.opcode &&& 0x00FF ≠ 0xE0 := by omega
    have b2 : s.opcode &&& 0x00FF ≠ 0xEE := by omega
    simp [execute, g, b1, b2]
  · have g : s.opcode &&& 0xF000 = 0x8000 := by omega
    have n0 : s.opcode &&& 0x000F ≠ 0 := by omega
    have n1 : s.opcode &&& 0x000F ≠ 1 := by omega
    have n2 : s.opcode &&& 0x000F ≠ 2 := by omega
    have n3 : s.opcode &&& 0x000F ≠ 3 := by omega
    have n4 : s.opcode &&& 0x000F ≠ 4 := by omega
    have n5 : s.opcode &&& 0x000F ≠ 5 := by omega
    have n6 : s.opcode &&& 0x000F ≠ 6 := by omega
    have n7 : s.opcode &&& 0x000F ≠ 7 := by omega
    have nE : s.opcode &&& 0x000F ≠ 0xE := by omega
    simp [execute, g, n0, n1, n2, n3, n4, n5, n6, n7, nE]
  · have g : s.opcode &&& 0xF000 = 0xE000 := by omega
    have b1 : s.opcode &&& 0x00FF ≠ 0x9E := by omega
    have b2 : s.opcode &&& 0x00FF ≠ 0xA1 := by omega
    simp [execute, g, b1, b2]
  · have g : s.opcode &&& 0xF000 = 0xF000 := by omega
    have b1 : s.opcode &&& 0x00FF ≠ 0x07 := by omega
    have b2 : s.opcode &&& 0x00FF ≠ 0x0A := by omega
    have b3 : s.opcode &&& 0x00FF ≠ 0x15 := by omega
    have b4 : s.opcode &&& 0x00FF ≠ 0x18 := by omega
    have b5 : s.opcode &&& 0x00FF ≠ 0x1E := by omega
    have b6 : s.opcode &&& 0x00FF ≠ 0x29 := by omega
    have b7 : s.opcode &&& 0x00FF ≠ 0x33 := by omega
    have b8 : s.opcode &&& 0x00FF ≠ 0x55 := by omega
    have b9 : s.opcode &&& 0x00FF ≠ 0x65 := by omega
    simp [execute, g, b1, b2, b3, b4, b5, b6, b7, b8, b9]

/-- Dispatch of `5XYN`: the low digit `N` is not looked at. -/
theorem execute_5xyn (s : Chip_8) (x y n : Nat) (hx : x < 16) (hy : y < 16) (hn : n < 16)
    (hw : s.opcode = 0x5000 + 256 * x + 16 * y + n) :
    execute s = .ok (pc_add_2 (skip_if_vx_eq_vy s x y)) := by
  have hg : s.opcode &&& 0xF000 = 0x5000 := by rw [land_F000, hw]; omega
  have hx1 : (s.opcode &&& 0x0F00) >>> 8 = x := by rw [land_0F00_shift, hw]; omega
  have hy1 : (s.opcode &&& 0x00F0) >>> 4 = y := by rw [land_00F0_shift, hw]; omega
  simp [execute, hg, hx1, hy1]

/-- Dispatch of `9XYN`: the low digit `N` is not looked at. -/
theorem execute_9xyn (s : Chip_8) (x y n : Nat) (hx : x < 16) (hy : y < 16) (hn : n < 16)
    (hw : s.opcode = 0x9000 + 256 * x + 16 * y + n) :
    execute s = .ok (pc_add_2 (skip_if_vx_ne_vy s x y)) := by
  have hg : s.opcode &&& 0xF000 = 0x9000 := by rw [land_F000, hw]; omega
  have hx1 : (s.opcode &&& 0x0F00) >>> 8 = x := by rw [land_0F00_shift, hw]; omega
  have hy1 : (s.opcode &&& 0x00F0) >>> 4 = y := by rw [land_00F0_shift, hw]; omega
  simp [execute, hg, hx1, hy1]

/-- C6 (as amended): one step whose fetched word is `0NNN` with low byte other than `E0`,
`EE`, or `8XYN` with `N` in `8..D` or `N = F`, or `EXNN` with `NN` not in `{9E, A1}`, or
`FXNN` with `NN` not in `{07, 0A, 15, 18, 1E, 29, 33, 55, 65}` ends in the fatal decode error
for that word and runs no handler; a step whose fetched word is `5XYN` or `9XYN` runs the
skip handler of `5XY0` or `9XY0` whatever `N` is. -/
theorem unmapped_word_decode_error (s : Chip_8) (hpc : s.pc + 1 < 4096) :
    (unmapped (fetch s) → emulate_cycle s = .error (.unknown_opcode (fetch s))) ∧
    (∀ x y n, x < 16 → y < 16 → n < 16 → fetch s = 0x5000 + 256 * x + 16 * y + n →
      emulate_cycle s
        = .ok (update_timers (pc_add_2 (skip_if_vx_eq_vy { s with opcode := fetch s } x y)))) ∧
    (∀ x y n, x < 16 → y < 16 → n < 16 → fetch s = 0x9000 + 256 * x + 16 * y + n →
      emulate_cycle s
        = .ok (update_timers (pc_add_2 (skip_if_vx_ne_vy { s with opcode := fetch s } x y)))) := by
  refine ⟨?_, ?_, ?_⟩
  · intro h
    rw [emulate_cycle_fetch s hpc,
      execute_unmapped { s with opcode := fetch s } h]
    rfl
  · intro x y n hx hy hn hw
    rw [emulate_cycle_fetch s hpc, execute_5xyn _ x y n hx hy hn hw]
    rfl
  · intro x y n hx hy hn hw
    rw [emulate_cycle_fetch s hpc, execute_9xyn _ x y n hx hy hn hw]
    rfl

/-- Witness for C6: the words `8008`, `E000`, `F0FF` and `0000` end in the decode error. -/
theorem unmapped_word_decode_error_witness :
    emulate_cycle (program_state 0x80 0x08 (fun _ => 0)) = .error (.unknown_opcode 0x8008) ∧
    emulate_cycle (program_state 0xE0 0x00 (fun _ => 0)) = .error (.unknown_opcode 0xE000) ∧
    emulate_cycle (program_state 0xF0 0xFF (fun _ => 0)) = .error (.unknown_opcode 0xF0FF) ∧
    emulate_cycle (program_state 0x00 0x00 (fun _ => 0)) = .error (.unknown_opcode 0x0000) := by
  have f1 : fetch (program_state 0x80 0x08 (fun _ => 0)) = 0x8008 :=
    program_state_fetch _ _ _ (by decide) (by decide)
  have f2 : fetch (program_state 0xE0 0x00 (fun _ => 0)) = 0xE000 :=
    program_state_fetch _ _ _ (by decide) (by decide)
  have f3 : fetch (program_state 0xF0 0xFF (fun _ => 0)) = 0xF0FF :=
    program_state_fetch _ _ _ (by decide) (by decide)
  have f4 : fetch (program_state 0x00 0x00 (fun _ => 0)) = 0x0000 :=
    program_state_fetch _ _ _ (by decide) (by decide)
  have h1 := (unmapped_word_decode_error (program_state 0x80 0x08 (fun _ => 0)) (by decide)).1
  have h2 := (unmapped_word_decode_error (program_state 0xE0 0x00 (fun _ => 0)) (by decide)).1
  have h3 := (unmapped_word_decode_error (program_state 0xF0 0xFF (fun _ => 0)) (by decide)).1
  have h4 := (unmapped_word_decode_error (program_state 0x00 0x00 (fun _ => 0)) (by decide)).1
  rw [f1] at h1
  rw [f2] at h2
  rw [f3] at h3
  rw [f4] at h4
  exact ⟨h1 (by unfold unmapped; omega), h2 (by unfold unmapped; omega),
    h3 (by unfold unmapped; omega), h4 (by unfold unmapped; omega)⟩

/-- C6 as stated fails for `5XYN` with `N != 0`: the word `5011` matches no instruction of
the set, yet the step runs the skip handler (here `V0 = V1`, so `pc` goes from `0x200` to
`0x204`) and ends without an error. -/
theorem word_5011_is_executed :
    ∃ s1, emulate_cycle (program_state 0x50 0x11 (fun _ => 0)) = .ok s1 ∧ s1.pc = 0x204 := by
  rw [emulate_cycle_fetch _ (by decide),
    execute_5xyn _ 0 1 1 (by decide) (by decide) (by decide)
      (program_state_fetch _ _ _ (by decide) (by decide))]
  refine ⟨_, rfl, ?_⟩
  simp [skip_if_vx_eq_vy, program_state, Chip_8.new]

/-! ## The loops of `draw` as one fold over `(index, sprite_pixel)` pairs -/

theorem blit_step_gfx (s : Chip_8) (p : Nat × Nat) :
    (blit_step s p).gfx = upd s.gfx p.1 (p.2 ^^^ s.gfx p.1) := by
  unfold blit_step
  dsimp only
  split_ifs <;> rfl

theorem blit_step_V (s : Chip_8) (p : Nat × Nat) :
    (blit_step s p).V = if p.2 ≠ 0 ∧ s.gfx p.1 ≠ 0 then upd s.V 0xF 1 else s.V := by
  unfold blit_step
  dsimp only
  split_ifs <;> rfl

/-- One iteration of the inner loop changes `V` and `gfx` only. -/
theorem blit_step_frame (s : Chip_8) (p : Nat × Nat) :
    blit_step s p = { s with V := (blit_step s p).V, gfx := (blit_step s p).gfx } := by
  unfold blit_step
  dsimp only
  split_ifs <;> rfl

/-- The loops change `V` and `gfx` only. -/
theorem blit_frame (l : List (Nat × Nat)) :
    ∀ s : Chip_8, l.foldl blit_step s
      = { s with V := (l.foldl blit_step s).V, gfx := (l.foldl blit_step s).gfx } := by
  induction l with
  | nil => intro s; rfl
  | cons p l ih =>
    intro s
    simp only [List.foldl_cons]
    rw [ih (blit_step s p)]
    rw [blit_step_frame s p]

theorem blit_memory (l : List (Nat × Nat)) (s : Chip_8) :
    (l.foldl blit_step s).memory = s.memory := by
  rw [blit_frame l s]

theorem blit_I (l : List (Nat × Nat)) (s : Chip_8) : (l.foldl blit_step s).I = s.I := by
  rw [blit_frame l s]

theorem blit_pc (l : List (Nat × Nat)) (s : Chip_8) : (l.foldl blit_step s).pc = s.pc := by
  rw [blit_frame l s]

/-- The loops write no register other than `VF`. -/
theorem blit_V (l : List (Nat × Nat)) (k : Nat) (hk : k ≠ 0xF) :
    ∀ s : Chip_8, (l.foldl blit_step s).V k = s.V k := by
  induction l with
  | nil => intro s; rfl
  | cons p l ih =>
    intro s
    simp only [List.foldl_cons]
    rw [ih (blit_step s p), blit_step_V]
    split_ifs
    · exact upd_other _ _ _ _ hk
    · rfl

/-- A cell that is the index of no pair keeps its value. -/
theorem blit_untouched (l : List (Nat × Nat)) (j : Nat) :
    ∀ s : Chip_8, (∀ p ∈ l, p.1 ≠ j) → (l.foldl blit_step s).gfx j = s.gfx j := by
  induction l with
  | nil => intro s _; rfl
  | cons p l ih =>
    intro s h
    simp only [List.foldl_cons]
    rw [ih (blit_step s p) (fun q hq => h q (List.mem_cons_of_mem _ hq)), blit_step_gfx]
    exact upd_other _ _ _ _ (fun e => h p (List.mem_cons_self _ _) e.symm)

/-- With pairwise different indices, the cell of a pair ends as the exclusive or of its
sprite pixel and its old value. -/
theorem blit_written (l : List (Nat × Nat)) :
    ∀ s : Chip_8, l.Pairwise (fun p q => p.1 ≠ q.1) → ∀ p ∈ l,
      (l.foldl blit_step s).gfx p.1 = p.2 ^^^ s.gfx p.1 := by
  induction l with
  | nil => intro s _ p hp; cases hp
  | cons q l ih =>
    intro s hd p hp
    rw [List.pairwise_cons] at hd
    simp only [List.foldl_cons]
    rcases List.mem_cons.1 hp with rfl | hp
    · rw [blit_untouched l p.1 (blit_step s p) (fun r hr e => hd.1 r hr e.symm), blit_step_gfx]
      exact upd_same _ _ _
    · rw [ih (blit_step s q) hd.2 p hp, blit_step_gfx,
        upd_other _ _ _ _ (fun e => hd.1 p hp e.symm)]

/-- Once set, the collision flag stays set. -/
theorem blit_VF_sticky (l : List (Nat × Nat)) :
    ∀ s : Chip_8, s.V 0xF = 1 → (l.foldl blit_step s).V 0xF = 1 := by
  induction l with
  | nil => intro s h; exact h
  | cons p l ih =>
    intro s h
    simp only [List.foldl_cons]
    apply ih
    rw [blit_step_V]
    split_ifs
    · exact upd_same _ _ _
    · exact h

/-- With pairwise different indices, a pair whose sprite pixel and whose cell are both
non-zero sets the collision flag. -/
theorem blit_VF_collision (l : List (Nat × Nat)) :
    ∀ s : Chip_8, l.Pairwise (fun p q => p.1 ≠ q.1) → ∀ p ∈ l, p.2 ≠ 0 → s.gfx p.1 ≠ 0 →
      (l.foldl blit_step s).V 0xF = 1 := by
  induction l with
  | nil => intro s _ p hp; cases hp
  | cons q l ih =>
    intro s hd p hp h2 hg
    rw [List.pairwise_cons] at hd
    simp only [List.foldl_cons]
    rcases List.mem_cons.1 hp with rfl | hp
    · apply blit_VF_sticky
      rw [blit_step_V, if_pos ⟨h2, hg⟩]
      exact upd_same _ _ _
    · apply ih (blit_step s q) hd.2 p hp h2
      rw [blit_step_gfx, upd_other _ _ _ _ (fun e => hd.1 p hp e.symm)]
      exact hg

/-- With pairwise different indices, the collision flag is unchanged when no pair has both
a non-zero sprite pixel and a non-zero cell. -/
theorem blit_VF_clear (l : List (Nat × Nat)) :
    ∀ s : Chip_8, l.Pairwise (fun p q => p.1 ≠ q.1) → (∀ p ∈ l, p.2 = 0 ∨ s.gfx p.1 = 0) →
      (l.foldl blit_step s).V 0xF = s.V 0xF := by
  induction l with
  | nil => intro s _ _; rfl
  | cons q l ih =>
    intro s hd h
    rw [List.pairwise_cons] at hd
    simp only [List.foldl_cons]
    have hq : ¬ (q.2 ≠ 0 ∧ s.gfx q.1 ≠ 0) := by
      rcases h q (List.mem_cons_self _ _) with h0 | h0 <;> simp [h0]
    rw [ih (blit_step s q) hd.2, blit_step_V, if_neg hq]
    intro p hp
    rw [blit_step_gfx, upd_other _ _ _ _ (fun e => hd.1 p hp e.symm)]
    exact h p (List.mem_cons_of_mem _ hp)

/-- The body of the inner loop, for operand registers other than `VF`. -/
theorem draw_pixel_eq (x y row sprite_row : Nat) (s : Chip_8) (i : Nat)
    (hx : x ≠ 0xF) (hy : y ≠ 0xF) :
    draw_pixel x y row sprite_row s i
      = blit_step s (cell (s.V x) (s.V y) row i, sprite_pixel sprite_row i) := by
  unfold draw_pixel blit_step cell sprite_pixel
  dsimp only
  split_ifs
  · simp only [upd_other _ _ _ _ hx, upd_other _ _ _ _ hy]
  · rfl

/-- The inner loop, for operand registers other than `VF`. -/
theorem draw_cols_eq (x y row sprite_row : Nat) (hx : x ≠ 0xF) (hy : y ≠ 0xF)
    (cols : List Nat) :
    ∀ s : Chip_8, cols.foldl (draw_pixel x y row sprite_row) s
      = (cols.map (fun i => (cell (s.V x) (s.V y) row i, sprite_pixel sprite_row i))).foldl
          blit_step s := by
  induction cols with
  | nil => intro s; rfl
  | cons i cols ih =>
    intro s
    simp only [List.foldl_cons, List.map_cons]
    rw [draw_pixel_eq x y row sprite_row s i hx hy, ih]
    have ex := blit_V [(cell (s.V x) (s.V y) row i, sprite_pixel sprite_row i)] x hx s
    have ey := blit_V [(cell (s.V x) (s.V y) row i, sprite_pixel sprite_row i)] y hy s
    simp only [List.foldl_cons, List.foldl_nil] at ex ey
    rw [ex, ey]

/-- The outer loop, for operand registers other than `VF` and sprite rows inside memory. -/
theorem draw_rows_eq (x y : Nat) (hx : x ≠ 0xF) (hy : y ≠ 0xF) (rows : List Nat) :
    ∀ s : Chip_8, (∀ r ∈ rows, s.I + r < 4096) →
      draw_rows x y rows s
        = .ok ((pixels (s.V x) (s.V y) s.memory s.I rows).foldl blit_step s) := by
  induction rows with
  | nil => intro s _; rfl
  | cons r rows ih =>
    intro s h
    have hr : s.I + r < 4096 := h r (List.mem_cons_self _ _)
    simp only [draw_rows, draw_row, subscript, hr, if_true, pixels, List.foldl_append]
    rw [draw_cols_eq x y r (s.memory (s.I + r)) hx hy (List.range 8) s]
    have e : (List.map (fun i => (cell (s.V x) (s.V y) r i, sprite_pixel (s.memory (s.I + r)) i))
        (List.range 8)) = row_pixels (s.V x) (s.V y) (s.memory (s.I + r)) r := rfl
    rw [e, ih]
    · rw [blit_V _ x hx, blit_V _ y hy, blit_memory, blit_I]
    · intro r1 h1
      rw [blit_I]
      exact h r1 (List.mem_cons_of_mem _ h1)

/-- The handler `draw`, for operand registers other than `VF` and a sprite inside memory:
the flag is cleared, then every pixel of the sprite is blitted in the order of the loops. -/
theorem draw_eq (s : Chip_8) (x y n : Nat) (hx : x ≠ 0xF) (hy : y ≠ 0xF)
    (hI : s.I + n ≤ 4096) :
    draw s x y n = .ok ((pixels (s.V x) (s.V y) s.memory s.I (List.range n)).foldl blit_step
      { s with V := upd s.V 0xF 0 }) := by
  unfold draw
  rw [draw_rows_eq x y hx hy (List.range n)]
  · simp only [upd_other _ _ _ _ hx, upd_other _ _ _ _ hy]
  · intro r hr
    have := List.mem_range.1 hr
    show s.I + r < 4096
    omega

theorem mem_row_pixels (a b sprite_row row : Nat) (p : Nat × Nat) :
    p ∈ row_pixels a b sprite_row row ↔
      ∃ i, i < 8 ∧ p = (cell a b row i, sprite_pixel sprite_row i) := by
  unfold row_pixels
  rw [List.mem_map]
  constructor
  · rintro ⟨i, hi, rfl⟩; exact ⟨i, List.mem_range.1 hi, rfl⟩
  · rintro ⟨i, hi, rfl⟩; exact ⟨i, List.mem_range.2 hi, rfl⟩

theorem mem_pixels (a b : Nat) (memory : Nat → Nat) (I : Nat) (rows : List Nat)
    (p : Nat × Nat) :
    p ∈ pixels a b memory I rows ↔
      ∃ r, r ∈ rows ∧ ∃ i, i < 8 ∧ p = (cell a b r i, sprite_pixel (memory (I + r)) i) := by
  induction rows with
  | nil => simp [pixels]
  | cons r rows ih =>
    simp only [pixels, List.mem_append, mem_row_pixels, ih, List.mem_cons]
    constructor
    · rintro (h | ⟨r1, h1, h⟩)
      · exact ⟨r, Or.inl rfl, h⟩
      · exact ⟨r1, Or.inr h1, h⟩
    · rintro ⟨r1, rfl | h1, h⟩
      · exact Or.inl h
      · exact Or.inr ⟨r1, h1, h⟩

/-- Two pixels of a sprite of at most 32 rows fall on the same cell only if they are the
same pixel. -/
theorem cell_injective (a b r1 i1 r2 i2 : Nat) (hr1 : r1 < 32) (hr2 : r2 < 32)
    (hi1 : i1 < 8) (hi2 : i2 < 8) (h : cell a b r1 i1 = cell a b r2 i2) :
    r1 = r2 ∧ i1 = i2 := by
  unfold cell at h
  omega

theorem cell_lt (a b r i : Nat) : cell a b r i < 64 * 32 := by
  unfold cell
  omega

/-- The indices of the pixels of distinct rows below 32 are pairwise different. -/
theorem pixels_distinct (a b : Nat) (memory : Nat → Nat) (I : Nat) (rows : List Nat)
    (hn : rows.Nodup) (hr : ∀ r ∈ rows, r < 32) :
    (pixels a b memory I rows).Pairwise (fun p q => p.1 ≠ q.1) := by
  induction rows with
  | nil => exact List.Pairwise.nil
  | cons r rows ih =>
    rw [List.nodup_cons] at hn
    have hr0 : r < 32 := hr r (List.mem_cons_self _ _)
    simp only [pixels]
    rw [List.pairwise_append]
    refine ⟨?_, ih hn.2 (fun r1 h1 => hr r1 (List.mem_cons_of_mem _ h1)), ?_⟩
    · unfold row_pixels
      rw [List.pairwise_map]
      refine List.Pairwise.imp_of_mem ?_ (List.pairwise_lt_range 8)
      intro i j hi hj hij e
      have := cell_injective a b r i r j hr0 hr0 (List.mem_range.1 hi) (List.mem_range.1 hj) e
      omega
    · intro p hp q hq e
      obtain ⟨i, hi, rfl⟩ := (mem_row_pixels _ _ _ _ _).1 hp
      obtain ⟨r1, h1, j, hj, rfl⟩ := (mem_pixels _ _ _ _ _ _).1 hq
      have := cell_injective a b r i r1 j hr0 (hr r1 (List.mem_cons_of_mem _ h1)) hi hj e
      exact hn.1 (this.1 ▸ h1)

/-- The sprite pixel of column `i` is non-zero exactly when bit `7 - i` of the row byte is
set. -/
theorem sprite_pixel_ne_zero (sprite_row i : Nat) :
    sprite_pixel sprite_row i ≠ 0 ↔ sprite_row.testBit (7 - i) = true := by
  unfold sprite_pixel
  rw [Nat.one_shiftLeft]
  constructor
  · intro h
    obtain ⟨k, hk⟩ := Nat.ne_zero_implies_bit_true h
    rw [Nat.testBit_and, Nat.testBit_two_pow] at hk
    simp only [Bool.and_eq_true, decide_eq_true_eq] at hk
    rw [hk.1]
    exact hk.2
  · intro h e
    have := Nat.testBit_and (2 ^ (7 - i)) sprite_row (7 - i)
    rw [e, Nat.zero_testBit, Nat.testBit_two_pow, h] at this
    simp at this

/-- Dispatch of `DXYN`. -/
theorem execute_dxyn (s : Chip_8) (x y n : Nat) (hx : x < 16) (hy : y < 16) (hn : n < 16)
    (hw : s.opcode = 0xD000 + 256 * x + 16 * y + n) :
    execute s = (draw s x y n).map pc_add_2 := by
  have hg : s.opcode &&& 0xF000 = 0xD000 := by rw [land_F000, hw]; omega
  have hn1 : s.opcode &&& 0x000F = n := by rw [land_000F, hw]; omega
  have hx1 : (s.opcode &&& 0x0F00) >>> 8 = x := by rw [land_0F00_shift, hw]; omega
  have hy1 : (s.opcode &&& 0x00F0) >>> 4 = y := by rw [land_00F0_shift, hw]; omega
  simp [execute, hg, hn1, hx1, hy1]

/-- One step on `DXYN`, for operand registers other than `VF` and a sprite inside memory. -/
theorem emulate_cycle_dxyn (s : Chip_8) (x y n : Nat) (hx : x < 16) (hy : y < 16)
    (hn : n < 16) (hxF : x ≠ 0xF) (hyF : y ≠ 0xF) (hI : s.I + n ≤ 4096)
    (hpc : s.pc + 1 < 4096) (hw : fetch s = 0xD000 + 256 * x + 16 * y + n) :
    emulate_cycle s = .ok (update_timers (pc_add_2
      ((pixels (s.V x) (s.V y) s.memory s.I (List.range n)).foldl blit_step
        { s with opcode := fetch s, V := upd s.V 0xF 0 }))) := by
  rw [emulate_cycle_fetch s hpc, execute_dxyn _ x y n hx hy hn hw,
    draw_eq { s with opcode := fetch s } x y n hxF hyF hI]
  rfl

/-- The pixel list of a sprite of fewer than 16 rows has pairwise different indices. -/
theorem sprite_distinct (a b : Nat) (memory : Nat → Nat) (I n : Nat) (hn : n < 16) :
    (pixels a b memory I (List.range n)).Pairwise (fun p q => p.1 ≠ q.1) :=
  pixels_distinct a b memory I (List.range n) (List.nodup_range n)
    (fun r hr => by have := List.mem_range.1 hr; omega)

/-- C5: executing `DXYN` twice in a row, with operand registers other than `VF` and the
sprite inside memory, leaves every display cell with the value it had before the first draw;
and when the display was all zero and the sprite has a set bit, the first draw leaves
`VF = 0` and the second leaves `VF = 1`. -/
theorem draw_twice_restores_display (s : Chip_8) (x y n : Nat) (hx : x < 16) (hy : y < 16)
    (hn : n < 16) (hxF : x ≠ 0xF) (hyF : y ≠ 0xF) (hI : s.I + n ≤ 4096)
    (hpc : s.pc + 3 < 4096) (hw1 : fetch s = 0xD000 + 256 * x + 16 * y + n)
    (hw2 : fetch { s with pc := s.pc + 2 } = 0xD000 + 256 * x + 16 * y + n) :
    ∃ s1 s2, emulate_cycle s = .ok s1 ∧ emulate_cycle s1 = .ok s2 ∧
      s1.V x = s.V x ∧ s1.V y = s.V y ∧ s1.I = s.I ∧ s1.memory = s.memory ∧
      (∀ j, s2.gfx j = s.gfx j) ∧
      ((∀ j, j < 64 * 32 → s.gfx j = 0) →
        (∃ r, r < n ∧ ∃ i, i < 8 ∧ (s.memory (s.I + r)).testBit (7 - i) = true) →
        s1.V 0xF = 0 ∧ s2.V 0xF = 1) := by
  have hd := sprite_distinct (s.V x) (s.V y) s.memory s.I n hn
  have hmem := mem_pixels (s.V x) (s.V y) s.memory s.I (List.range n)
  obtain ⟨l, hl⟩ : ∃ l, l = pixels (s.V x) (s.V y) s.memory s.I (List.range n) := ⟨_, rfl⟩
  rw [← hl] at hd hmem
  -- the first draw
  obtain ⟨t0, ht0⟩ : ∃ t0 : Chip_8, t0 = { s with opcode := fetch s, V := upd s.V 0xF 0 } :=
    ⟨_, rfl⟩
  have t0g : t0.gfx = s.gfx := by rw [ht0]
  have t0F : t0.V 0xF = 0 := by rw [ht0]; show upd s.V 0xF 0 0xF = 0; exact upd_same _ _ _
  have t0V : ∀ k, k ≠ 0xF → t0.V k = s.V k := by
    intro k hk; rw [ht0]; show upd s.V 0xF 0 k = s.V k; exact upd_other _ _ _ _ hk
  obtain ⟨s1, hs1⟩ : ∃ s1, s1 = update_timers (pc_add_2 (l.foldl blit_step t0)) := ⟨_, rfl⟩
  have e1 : emulate_cycle s = .ok s1 := by
    rw [hs1, hl, ht0]
    exact emulate_cycle_dxyn s x y n hx hy hn hxF hyF hI (by omega) hw1
  have s1V : ∀ k, k ≠ 0xF → s1.V k = s.V k := by
    intro k hk
    rw [hs1, update_timers_V, pc_add_2_V, blit_V l k hk, t0V k hk]
  have s1m : s1.memory = s.memory := by
    rw [hs1, update_timers_memory, pc_add_2_memory, blit_memory, ht0]
  have s1I : s1.I = s.I := by
    rw [hs1, update_timers_I, pc_add_2_I, blit_I, ht0]
  have s1pc : s1.pc = s.pc + 2 := by
    rw [hs1, update_timers_pc, pc_add_2_pc, blit_pc, ht0]
    show (s.pc + 2) % 65536 = s.pc + 2
    omega
  have s1g : s1.gfx = (l.foldl blit_step t0).gfx := by
    rw [hs1, update_timers_gfx, pc_add_2_gfx]
  have s1F : s1.V 0xF = (l.foldl blit_step t0).V 0xF := by
    rw [hs1, update_timers_V, pc_add_2_V]
  -- the second draw
  have hw2' : fetch s1 = 0xD000 + 256 * x + 16 * y + n := by
    rw [← hw2]
    simp only [fetch, s1m, s1pc]
  obtain ⟨u0, hu0⟩ : ∃ u0 : Chip_8, u0 = { s1 with opcode := fetch s1, V := upd s1.V 0xF 0 } :=
    ⟨_, rfl⟩
  have u0g : u0.gfx = s1.gfx := by rw [hu0]
  have e2 : emulate_cycle s1 = .ok (update_timers (pc_add_2 (l.foldl blit_step u0))) := by
    have := emulate_cycle_dxyn s1 x y n hx hy hn hxF hyF (by rw [s1I]; exact hI)
      (by omega) hw2'
    have hl2 : pixels (s1.V x) (s1.V y) s1.memory s1.I (List.range n) = l := by
      rw [s1V x hxF, s1V y hyF, s1m, s1I, hl]
    rw [hl2] at this
    rw [hu0]
    exact this
  refine ⟨s1, _, e1, e2, s1V x hxF, s1V y hyF, s1I, s1m, ?_, ?_⟩
  · intro j
    rw [update_timers_gfx, pc_add_2_gfx]
    by_cases h : ∃ p ∈ l, p.1 = j
    · obtain ⟨p, hp, rfl⟩ := h
      rw [blit_written l u0 hd p hp, u0g, s1g, blit_written l t0 hd p hp, t0g,
        ← Nat.xor_assoc, Nat.xor_self, Nat.zero_xor]
    · have h' : ∀ p ∈ l, p.1 ≠ j := fun p hp e => h ⟨p, hp, e⟩
      rw [blit_untouched l j u0 h', u0g, s1g, blit_untouched l j t0 h', t0g]
  · intro hz ⟨r, hr, i, hi, hbit⟩
    have hcell : ∀ p ∈ l, t0.gfx p.1 = 0 := by
      intro p hp
      obtain ⟨r1, _, i1, _, rfl⟩ := (hmem p).1 hp
      rw [t0g]
      exact hz _ (cell_lt _ _ _ _)
    have hF1 : s1.V 0xF = 0 := by
      rw [s1F, blit_VF_clear l t0 hd (fun p hp => Or.inr (hcell p hp)), t0F]
    refine ⟨hF1, ?_⟩
    rw [update_timers_V, pc_add_2_V]
    have hp : (cell (s.V x) (s.V y) r i, sprite_pixel (s.memory (s.I + r)) i) ∈ l :=
      (hmem _).2 ⟨r, List.mem_range.2 hr, i, hi, rfl⟩
    have hne : sprite_pixel (s.memory (s.I + r)) i ≠ 0 :=
      (sprite_pixel_ne_zero _ _).2 hbit
    apply blit_VF_collision l u0 hd _ hp hne
    rw [u0g, s1g, blit_written l t0 hd _ hp, hcell _ hp, Nat.xor_zero]
    exact hne

/-- Witness for C5: the sprite byte `0xFF` drawn twice at `(0, 0)` on a blank display. -/
theorem draw_twice_restores_display_witness :
    ∃ s1 s2, emulate_cycle draw_twice_state = .ok s1 ∧ emulate_cycle s1 = .ok s2 ∧
      (∀ j, s2.gfx j = 0) ∧ s1.V 0xF = 0 ∧ s2.V 0xF = 1 := by
  obtain ⟨s1, s2, h1, h2, _, _, _, _, hg, hF⟩ :=
    draw_twice_restores_display draw_twice_state 0 1 1
      (by decide) (by decide) (by decide) (by decide) (by decide) (by decide) (by decide)
      (by decide) (by decide)
  obtain ⟨hF1, hF2⟩ := hF (fun _ _ => rfl) ⟨0, by decide, 0, by decide, by decide⟩
  exact ⟨s1, s2, h1, h2, hg, hF1, hF2⟩

/-! ## C4: what one draw does to a cell that is lit -/

/-- C4, the code at the failing input.  In `collision_state` every display cell is 0 or 1,
cell `(7, 0)` is lit and bit 7 of the sprite byte is set, so the claim asks for the cell to be
unlit after `D011`; the step leaves it at `0x81`, still lit (the flag is 1 as claimed).  The
same situation arises from a fresh machine running `overlap_rom`: after two cycles every cell
is 0 or 1 and cell `(7, 0)` holds 1, and after the second draw it holds `0x81`. -/
theorem draw_collision_keeps_cell_lit :
    ((∀ j, collision_state.gfx j ≤ 1) ∧ collision_state.gfx 7 = 1 ∧
      collision_state.V 0 = 7 ∧ collision_state.V 1 = 0 ∧
      (collision_state.memory collision_state.I).testBit 7 = true ∧
      ∃ s1, emulate_cycle collision_state = .ok s1 ∧ s1.gfx 7 = 0x81 ∧ s1.V 0xF = 1) ∧
    (∃ s0 s2 s5, load_rom (Chip_8.new (fun _ => 0) []) overlap_rom = .ok s0 ∧
      cycles 2 s0 = .ok s2 ∧ (∀ j, s2.gfx j ≤ 1) ∧ s2.gfx 7 = 1 ∧
      cycles 3 s2 = .ok s5 ∧ s5.gfx 7 = 0x81 ∧ s5.V 0xF = 1) := by
  refine ⟨⟨?_, rfl, rfl, rfl, by decide, _, rfl, rfl, rfl⟩,
    ⟨_, _, _, rfl, rfl, ?_, rfl, rfl, rfl, rfl⟩⟩
  · intro j
    show upd (fun _ => 0) 7 1 j ≤ 1
    unfold upd
    split_ifs <;> simp
  · intro j
    show upd (upd (upd (upd (upd (upd (upd (upd (fun _ => 0) 0 0) 1 0) 2 0) 3 0) 4 0) 5 0) 6 0)
      7 1 j ≤ 1
    unfold upd
    split_ifs <;> simp

/-! ## What each handler leaves alone -/

theorem map_eq_ok {f : Chip_8 → Chip_8} {r : Except Stop Chip_8} {t : Chip_8}
    (h : r.map f = .ok t) : ∃ t0, r = .ok t0 ∧ t = f t0 := by
  cases r with
  | error e => cases h
  | ok t0 => exact ⟨t0, rfl, by injection h with h; exact h.symm⟩

theorem call_frame (s t : Chip_8) (A : Nat) (h : call s A = .ok t) :
    t = { s with stack := t.stack, sp := t.sp, pc := t.pc } := by
  unfold call subscript at h
  split_ifs at h
  all_goals (injection h with h; subst h; rfl)

theorem _return_frame (s t : Chip_8) (h : _return s = .ok t) :
    t = { s with sp := t.sp, pc := t.pc } := by
  unfold _return subscript at h
  dsimp only at h
  split_ifs at h
  all_goals (injection h with h; subst h; rfl)

theorem draw_pixel_frame (x y row sprite_row : Nat) (s : Chip_8) (i : Nat) :
    draw_pixel x y row sprite_row s i
      = { s with V := (draw_pixel x y row sprite_row s i).V,
                 gfx := (draw_pixel x y row sprite_row s i).gfx } := by
  unfold draw_pixel
  dsimp only
  split_ifs <;> rfl

theorem draw_cols_frame (x y row sprite_row : Nat) (cols : List Nat) :
    ∀ s : Chip_8, cols.foldl (draw_pixel x y row sprite_row) s
      = { s with V := (cols.foldl (draw_pixel x y row sprite_row) s).V,
                 gfx := (cols.foldl (draw_pixel x y row sprite_row) s).gfx } := by
  induction cols with
  | nil => intro s; rfl
  | cons i cols ih =>
    intro s
    simp only [List.foldl_cons]
    rw [ih (draw_pixel x y row sprite_row s i), draw_pixel_frame x y row sprite_row s i]

theorem draw_rows_frame (x y : Nat) (rows : List Nat) :
    ∀ s t : Chip_8, draw_rows x y rows s = .ok t → t = { s with V := t.V, gfx := t.gfx } := by
  induction rows with
  | nil => intro s t h; simp only [draw_rows] at h; injection h with h; subst h; rfl
  | cons r rows ih =>
    intro s t h
    simp only [draw_rows, draw_row, subscript] at h
    split_ifs at h
    have := ih _ t h
    rw [this, draw_cols_frame x y r (s.memory (s.I + r)) (List.range 8) s]

theorem draw_frame (s t : Chip_8) (x y n : Nat) (h : draw s x y n = .ok t) :
    t = { s with V := t.V, gfx := t.gfx } := by
  unfold draw at h
  have := draw_rows_frame x y (List.range n) _ t h
  rw [this]

theorem store_loop_frame (l : List Nat) :
    ∀ s t : Chip_8, store_loop l s = .ok t → t = { s with memory := t.memory } := by
  induction l with
  | nil => intro s t h; simp only [store_loop] at h; injection h with h; subst h; rfl
  | cons i l ih =>
    intro s t h
    simp only [store_loop, subscript] at h
    split_ifs at h
    have := ih _ t h
    rw [this]

theorem read_loop_frame (l : List Nat) :
    ∀ s t : Chip_8, read_loop l s = .ok t → t = { s with V := t.V } := by
  induction l with
  | nil => intro s t h; simp only [read_loop] at h; injection h with h; subst h; rfl
  | cons i l ih =>
    intro s t h
    simp only [read_loop, subscript] at h
    split_ifs at h
    have := ih _ t h
    rw [this]

theorem set_i_to_bcd_of_vx_frame (s t : Chip_8) (x : Nat)
    (h : set_i_to_bcd_of_vx s x = .ok t) : t = { s with memory := t.memory } := by
  unfold set_i_to_bcd_of_vx subscript at h
  dsimp only at h
  split_ifs at h
  all_goals (injection h with h; subst h; rfl)

theorem skip_if_vx_pressed_frame (s t : Chip_8) (x : Nat)
    (h : skip_if_vx_pressed s x = .ok t) : t = { s with pc := t.pc } := by
  unfold skip_if_vx_pressed subscript pc_add_2 at h
  split_ifs at h
  all_goals (injection h with h; subst h; rfl)

theorem skip_if_vx_not_pressed_frame (s t : Chip_8) (x : Nat)
    (h : skip_if_vx_not_pressed s x = .ok t) : t = { s with pc := t.pc } := by
  unfold skip_if_vx_not_pressed subscript pc_add_2 at h
  split_ifs at h
  all_goals (injection h with h; subst h; rfl)

theorem handle_event_frame (s : Chip_8) (x : Nat) (e : Event) :
    handle_event s x e = { s with window_open := (handle_event s x e).window_open,
                                  focused := (handle_event s x e).focused,
                                  key := (handle_event s x e).key,
                                  V := (handle_event s x e).V } := by
  unfold handle_event set_keys focus unfocus
  dsimp only
  split_ifs <;> (try split) <;> rfl

theorem wait_loop_frame (x : Nat) (evs : List (Option Event)) :
    ∀ s t : Chip_8, wait_loop x evs s = .ok t →
      t = { s with window_open := t.window_open, focused := t.focused, key := t.key,
                   V := t.V, events := t.events } := by
  induction evs with
  | nil =>
    intro s t h
    simp only [wait_loop] at h
    split_ifs at h
    injection h with h; subst h; rfl
  | cons e evs ih =>
    intro s t h
    cases e with
    | none =>
      simp only [wait_loop] at h
      split_ifs at h
      · exact ih s t h
      · injection h with h; subst h; rfl
    | some e =>
      simp only [wait_loop] at h
      split_ifs at h
      · have := ih _ t h
        rw [this, handle_event_frame s x e]
      · injection h with h; subst h; rfl

theorem add_vx_to_vy_frame (s : Chip_8) (x y : Nat) :
    add_vx_to_vy s x y = { s with V := (add_vx_to_vy s x y).V } := by
  unfold add_vx_to_vy; dsimp only; split_ifs <;> rfl

theorem sub_vy_from_vx_frame (s : Chip_8) (x y : Nat) :
    sub_vy_from_vx s x y = { s with V := (sub_vy_from_vx s x y).V } := by
  unfold sub_vy_from_vx; dsimp only; split_ifs <;> rfl

theorem sub_vx_from_vy_frame (s : Chip_8) (x y : Nat) :
    sub_vx_from_vy s x y = { s with V := (sub_vx_from_vy s x y).V } := by
  unfold sub_vx_from_vy; dsimp only; split_ifs <;> rfl

/-- A state that differs from `s` in fields other than the four of `dispatch_frame`. -/
theorem dispatch_frame_of_eq (s t : Chip_8) (h1 : t.plays = s.plays)
    (h2 : t.delay_timer = s.delay_timer) (h3 : t.sound_timer = s.sound_timer)
    (h4 : t.gfx = s.gfx) : dispatch_frame s t :=
  ⟨h1, fun _ => h2, fun _ => h3, fun _ _ => h4⟩

theorem skip_frame_if (s : Chip_8) (c : Prop) [Decidable c] :
    dispatch_frame s (pc_add_2 (if c then pc_add_2 s else s)) := by
  split_ifs <;> exact dispatch_frame_of_eq _ _ rfl rfl rfl rfl

/-- Group `0` of the dispatch. -/
theorem execute_frame_0 (s t : Chip_8) (h : execute s = .ok t)
    (hg : s.opcode &&& 0xF000 = 0x0000) : dispatch_frame s t := by
  simp only [execute, hg, Nat.reduceEqDiff, ↓reduceIte] at h
  by_cases h1 : s.opcode &&& 0x00FF = 0x00E0
  · simp only [h1, ↓reduceIte] at h
    injection h with h; subst h
    exact ⟨rfl, fun _ => rfl, fun _ => rfl, fun _ h0 => absurd ⟨hg, h1⟩ h0⟩
  · by_cases h2 : s.opcode &&& 0x00FF = 0x00EE
    · simp only [h2, Nat.reduceEqDiff, ↓reduceIte] at h
      have := _return_frame _ _ h
      rw [this]
      exact dispatch_frame_of_eq _ _ rfl rfl rfl rfl
    · simp only [h1, h2, ↓reduceIte] at h
      cases h

/-- Group `8` of the dispatch. -/
theorem execute_frame_8 (s t : Chip_8) (h : execute s = .ok t)
    (hg : s.opcode &&& 0xF000 = 0x8000) : dispatch_frame s t := by
  simp only [execute, hg, Nat.reduceEqDiff, ↓reduceIte] at h
  have hn := land_000F s.opcode
  have hlt : s.opcode % 16 < 16 := Nat.mod_lt _ (by decide)
  generalize s.opcode % 16 = n at hn hlt
  interval_cases n <;> simp only [hn, Nat.reduceEqDiff, ↓reduceIte] at h <;>
    first
    | (injection h with h; subst h
       first
       | exact dispatch_frame_of_eq _ _ rfl rfl rfl rfl
       | (rw [add_vx_to_vy_frame]; exact dispatch_frame_of_eq _ _ rfl rfl rfl rfl)
       | (rw [sub_vy_from_vx_frame]; exact dispatch_frame_of_eq _ _ rfl rfl rfl rfl)
       | (rw [sub_vx_from_vy_frame]; exact dispatch_frame_of_eq _ _ rfl rfl rfl rfl))
    | cases h

/-- Group `E` of the dispatch. -/
theorem execute_frame_E (s t : Chip_8) (h : execute s = .ok t)
    (hg : s.opcode &&& 0xF000 = 0xE000) : dispatch_frame s t := by
  simp only [execute, hg, Nat.reduceEqDiff, ↓reduceIte] at h
  by_cases h1 : s.opcode &&& 0x00FF = 0x009E
  · simp only [h1, ↓reduceIte] at h
    obtain ⟨t0, h0, rfl⟩ := map_eq_ok h
    rw [skip_if_vx_pressed_frame _ _ _ h0]
    exact dispatch_frame_of_eq _ _ rfl rfl rfl rfl
  · by_cases h2 : s.opcode &&& 0x00FF = 0x00A1
    · simp only [h2, Nat.reduceEqDiff, ↓reduceIte] at h
      obtain ⟨t0, h0, rfl⟩ := map_eq_ok h
      rw [skip_if_vx_not_pressed_frame _ _ _ h0]
      exact dispatch_frame_of_eq _ _ rfl rfl rfl rfl
    · simp only [h1, h2, ↓reduceIte] at h
      cases h

/-- Group `F` of the dispatch. -/
theorem execute_frame_F (s t : Chip_8) (h : execute s = .ok t)
    (hg : s.opcode &&& 0xF000 = 0xF000) : dispatch_frame s t := by
  simp only [execute, hg, Nat.reduceEqDiff, ↓reduceIte] at h
  have hc : s.opcode &&& 0x00FF = 0x33 ∨ s.opcode &&& 0x00FF = 0x15 ∨
      s.opcode &&& 0x00FF = 0x55 ∨ s.opcode &&& 0x00FF = 0x65 ∨ s.opcode &&& 0x00FF = 0x07 ∨
      s.opcode &&& 0x00FF = 0x18 ∨ s.opcode &&& 0x00FF = 0x29 ∨ s.opcode &&& 0x00FF = 0x0A ∨
      s.opcode &&& 0x00FF = 0x1E ∨
      (s.opcode &&& 0x00FF ≠ 0x33 ∧ s.opcode &&& 0x00FF ≠ 0x15 ∧ s.opcode &&& 0x00FF ≠ 0x55 ∧
        s.opcode &&& 0x00FF ≠ 0x65 ∧ s.opcode &&& 0x00FF ≠ 0x07 ∧ s.opcode &&& 0x00FF ≠ 0x18 ∧
        s.opcode &&& 0x00FF ≠ 0x29 ∧ s.opcode &&& 0x00FF ≠ 0x0A ∧
        s.opcode &&& 0x00FF ≠ 0x1E) := by omega
  rcases hc with h1 | h1 | h1 | h1 | h1 | h1 | h1 | h1 | h1 | ⟨a1, a2, a3, a4, a5, a6, a7, a8, a9⟩
  · simp only [h1, Nat.reduceEqDiff, ↓reduceIte] at h
    obtain ⟨t0, h0, rfl⟩ := map_eq_ok h
    rw [set_i_to_bcd_of_vx_frame _ _ _ h0]
    exact dispatch_frame_of_eq _ _ rfl rfl rfl rfl
  · simp only [h1, Nat.reduceEqDiff, ↓reduceIte] at h
    injection h with h; subst h
    exact ⟨rfl, fun h0 => absurd ⟨hg, h1⟩ h0, fun _ => rfl, fun _ _ => rfl⟩
  · simp only [h1, Nat.reduceEqDiff, ↓reduceIte] at h
    obtain ⟨t0, h0, rfl⟩ := map_eq_ok h
    rw [store_loop_frame _ _ _ h0]
    exact dispatch_frame_of_eq _ _ rfl rfl rfl rfl
  · simp only [h1, Nat.reduceEqDiff, ↓reduceIte] at h
    obtain ⟨t0, h0, rfl⟩ := map_eq_ok h
    rw [read_loop_frame _ _ _ h0]
    exact dispatch_frame_of_eq _ _ rfl rfl rfl rfl
  · simp only [h1, Nat.reduceEqDiff, ↓reduceIte] at h
    injection h with h; subst h
    exact dispatch_frame_of_eq _ _ rfl rfl rfl rfl
  · simp only [h1, Nat.reduceEqDiff, ↓reduceIte] at h
    injection h with h; subst h
    exact ⟨rfl, fun _ => rfl, fun h0 => absurd ⟨hg, h1⟩ h0, fun _ _ => rfl⟩
  · simp only [h1, Nat.reduceEqDiff, ↓reduceIte] at h
    injection h with h; subst h
    exact dispatch_frame_of_eq _ _ rfl rfl rfl rfl
  · simp only [h1, Nat.reduceEqDiff, ↓reduceIte] at h
    obtain ⟨t0, h0, rfl⟩ := map_eq_ok h
    rw [wait_loop_frame _ _ _ _ h0]
    exact dispatch_frame_of_eq _ _ rfl rfl rfl rfl
  · simp only [h1, Nat.reduceEqDiff, ↓reduceIte] at h
    injection h with h; subst h
    exact dispatch_frame_of_eq _ _ rfl rfl rfl rfl
  · simp only [a1, a2, a3, a4, a5, a6, a7, a8, a9, ↓reduceIte] at h
    cases h

/-- What the dispatch leaves alone: no handler calls `sound.play()`; only `FX15` writes the
delay timer, only `FX18` the sound timer, and only group `D` and the `E0` case of group `0`
write the display. -/
theorem execute_frame (s t : Chip_8) (h : execute s = .ok t) : dispatch_frame s t := by
  have hg := land_F000 s.opcode
  have hd : s.opcode / 4096 % 16 < 16 := Nat.mod_lt _ (by decide)
  generalize s.opcode / 4096 % 16 = d at hg hd
  interval_cases d <;> simp only [Nat.reduceMul] at hg
  · exact execute_frame_0 s t h hg
  · simp only [execute, hg, Nat.reduceEqDiff, ↓reduceIte] at h
    injection h with h; subst h
    exact dispatch_frame_of_eq _ _ rfl rfl rfl rfl
  · simp only [execute, hg, Nat.reduceEqDiff, ↓reduceIte] at h
    rw [call_frame _ _ _ h]
    exact dispatch_frame_of_eq _ _ rfl rfl rfl rfl
  · simp only [execute, hg, Nat.reduceEqDiff, ↓reduceIte] at h
    injection h with h; subst h
    exact skip_frame_if s _
  · simp only [execute, hg, Nat.reduceEqDiff, ↓reduceIte] at h
    injection h with h; subst h
    exact skip_frame_if s _
  · simp only [execute, hg, Nat.reduceEqDiff, ↓reduceIte] at h
    injection h with h; subst h
    exact skip_frame_if s _
  · simp only [execute, hg, Nat.reduceEqDiff, ↓reduceIte] at h
    injection h with h; subst h
    exact dispatch_frame_of_eq _ _ rfl rfl rfl rfl
  · simp only [execute, hg, Nat.reduceEqDiff, ↓reduceIte] at h
    injection h with h; subst h
    exact dispatch_frame_of_eq _ _ rfl rfl rfl rfl
  · exact execute_frame_8 s t h hg
  · simp only [execute, hg, Nat.reduceEqDiff, ↓reduceIte] at h
    injection h with h; subst h
    exact skip_frame_if s _
  · simp only [execute, hg, Nat.reduceEqDiff, ↓reduceIte] at h
    injection h with h; subst h
    exact dispatch_frame_of_eq _ _ rfl rfl rfl rfl
  · simp only [execute, hg, Nat.reduceEqDiff, ↓reduceIte] at h
    injection h with h; subst h
    exact dispatch_frame_of_eq _ _ rfl rfl rfl rfl
  · simp only [execute, hg, Nat.reduceEqDiff, ↓reduceIte] at h
    injection h with h; subst h
    exact dispatch_frame_of_eq _ _ rfl rfl rfl rfl
  · simp only [execute, hg, Nat.reduceEqDiff, ↓reduceIte] at h
    obtain ⟨t0, h0, rfl⟩ := map_eq_ok h
    rw [draw_frame _ _ _ _ _ h0]
    exact ⟨rfl, fun _ => rfl, fun _ => rfl, fun h0 _ => absurd hg h0⟩
  · exact execute_frame_E s t h hg
  · exact execute_frame_F s t h hg

/-! ## C11, C12: the timers and the audio trigger -/

/-- A step that passes the guard on `pc` and ends normally has fetched, dispatched and then
updated the timers. -/
theorem emulate_cycle_ok (s s1 : Chip_8) (hpc : s.pc < 4096) (h : emulate_cycle s = .ok s1) :
    s.pc + 1 < 4096 ∧
      ∃ t, execute { s with opcode := fetch s } = .ok t ∧ s1 = update_timers t := by
  have h1 : ¬ s.pc ≥ 4096 := by omega
  by_cases h2 : s.pc + 1 < 4096
  · refine ⟨h2, ?_⟩
    rw [emulate_cycle_fetch s h2] at h
    obtain ⟨t, ht, rfl⟩ := map_eq_ok h
    exact ⟨t, ht, rfl⟩
  · simp [emulate_cycle, subscript, h1, hpc, h2] at h

theorem update_timers_delay (t : Chip_8) :
    (update_timers t).delay_timer = t.delay_timer - 1 := by
  unfold update_timers; dsimp only; split_ifs <;> simp_all

theorem update_timers_sound (t : Chip_8) :
    (update_timers t).sound_timer = t.sound_timer - 1 := by
  unfold update_timers; dsimp only; split_ifs <;> simp_all

theorem update_timers_plays (t : Chip_8) :
    (update_timers t).plays = t.plays + (if t.sound_timer = 1 then 1 else 0) := by
  unfold update_timers; dsimp only; split_ifs <;> simp_all

/-- The digits form of "the word is `FX15`" against the masks of the dispatch. -/
theorem word_fx_iff (w k : Nat) (hw : w < 65536) :
    (w &&& 0xF000 = 0xF000 ∧ w &&& 0x00FF = k) ↔ (w / 4096 = 0xF ∧ w % 256 = k) := by
  rw [land_F000, land_00FF]
  constructor <;> rintro ⟨a, b⟩ <;> exact ⟨by omega, b⟩

/-- One step on any instruction other than `FX15` takes one from the delay timer, down to 0. -/
theorem delay_timer_step (s s1 : Chip_8) (hpc : s.pc < 4096) (h : emulate_cycle s = .ok s1)
    (hne : ¬ (fetch s / 4096 = 0xF ∧ fetch s % 256 = 0x15)) :
    s1.delay_timer = s.delay_timer - 1 := by
  obtain ⟨_, t, ht, rfl⟩ := emulate_cycle_ok s s1 hpc h
  have hf := (execute_frame _ t ht).2.1 (fun hc => hne ((word_fx_iff _ _ (fetch_lt s)).1 hc))
  rw [update_timers_delay, hf]

/-- C11: every step that executes an instruction other than `FX15` to completion leaves the
delay timer at `d - 1` when it was `d > 0` and at 0 when it was 0; hence along `k` such steps
the delay timer after `i` of them is `max (d - i) 0` for its starting value `d`. -/
theorem delay_timer_counts_down (run : Nat → Chip_8) (k : Nat)
    (hstep : ∀ i, i < k → (run i).pc < 4096 ∧ emulate_cycle (run i) = .ok (run (i + 1)) ∧
      ¬ (fetch (run i) / 4096 = 0xF ∧ fetch (run i) % 256 = 0x15)) :
    (∀ i, i < k → ((run i).delay_timer > 0 →
        (run (i + 1)).delay_timer = (run i).delay_timer - 1) ∧
      ((run i).delay_timer = 0 → (run (i + 1)).delay_timer = 0)) ∧
    (∀ i, i ≤ k → (run i).delay_timer = (run 0).delay_timer - i) := by
  have one : ∀ i, i < k → (run (i + 1)).delay_timer = (run i).delay_timer - 1 :=
    fun i hi => delay_timer_step _ _ (hstep i hi).1 (hstep i hi).2.1 (hstep i hi).2.2
  refine ⟨fun i hi => ⟨fun _ => one i hi, fun h0 => by rw [one i hi, h0]⟩, ?_⟩
  intro i
  induction i with
  | zero => intro _; rfl
  | succ i ih =>
    intro hi
    rw [one i (by omega), ih (by omega)]
    omega

/-- Witness for C11: the machine spinning on `1200` with delay timer 5 has delay timer
4, 3, 2, 1, 0, 0 after one to six cycles. -/
theorem delay_timer_counts_down_witness :
    (spin_run 5 0 0).delay_timer = 5 ∧ (spin_run 5 0 1).delay_timer = 4 ∧
    (spin_run 5 0 4).delay_timer = 1 ∧ (spin_run 5 0 5).delay_timer = 0 ∧
    (spin_run 5 0 6).delay_timer = 0 ∧
    ∀ i, i ≤ 6 → (spin_run 5 0 i).delay_timer = (spin_run 5 0 0).delay_timer - i := by
  have h := delay_timer_counts_down (spin_run 5 0) 6 (by
    intro i hi
    interval_cases i <;> exact ⟨by decide, rfl, by decide⟩)
  exact ⟨rfl, rfl, rfl, rfl, rfl, h.2⟩

/-- C12: in a step that executes an instruction to completion, `sound.play()` is called
exactly when the sound timer holds 1 at the timer update (and the timer is 0 afterwards); with
the sound timer at 0 or at 2 or more there is no call; the sound timer ends one lower, down
to 0.  The value at the timer update is the value before the step for every instruction
other than `FX18`. -/
theorem play_on_expiry (s s1 : Chip_8) (hpc : s.pc < 4096) (h : emulate_cycle s = .ok s1) :
    ∃ t, execute { s with opcode := fetch s } = .ok t ∧ s1 = update_timers t ∧
      t.plays = s.plays ∧
      (¬ (fetch s / 4096 = 0xF ∧ fetch s % 256 = 0x18) → t.sound_timer = s.sound_timer) ∧
      (s1.plays = s.plays + 1 ↔ t.sound_timer = 1) ∧
      (t.sound_timer ≠ 1 → s1.plays = s.plays) ∧
      (t.sound_timer = 1 → s1.sound_timer = 0) ∧
      s1.sound_timer = t.sound_timer - 1 := by
  obtain ⟨_, t, ht, rfl⟩ := emulate_cycle_ok s s1 hpc h
  have hf := execute_frame _ t ht
  have hp : t.plays = s.plays := hf.1
  refine ⟨t, ht, rfl, hp, ?_, ?_, ?_, ?_, update_timers_sound t⟩
  · intro hne
    exact hf.2.2.1 (fun hc => hne ((word_fx_iff _ _ (fetch_lt s)).1 hc))
  · rw [update_timers_plays, hp]
    split_ifs with h1
    · simp [h1]
    · simp [h1]
  · intro h1
    rw [update_timers_plays, hp, if_neg h1]
    rfl
  · intro h1
    rw [update_timers_sound, h1]

/-- Witness for C12: the machine spinning on `1200` with sound timer 1 calls `sound.play()`
in its first cycle, which leaves the sound timer at 0, and not in its second. -/
theorem play_on_expiry_witness :
    (spin_run 0 1 0).sound_timer = 1 ∧ (spin_run 0 1 0).plays = 0 ∧
    emulate_cycle (spin_run 0 1 0) = .ok (spin_run 0 1 1) ∧
    (spin_run 0 1 1).plays = 1 ∧ (spin_run 0 1 1).sound_timer = 0 ∧
    emulate_cycle (spin_run 0 1 1) = .ok (spin_run 0 1 2) ∧ (spin_run 0 1 2).plays = 1 := by
  have e1 : emulate_cycle (spin_run 0 1 0) = .ok (spin_run 0 1 1) := rfl
  have e2 : emulate_cycle (spin_run 0 1 1) = .ok (spin_run 0 1 2) := rfl
  obtain ⟨t, _, _, _, hs, hp, _⟩ := play_on_expiry (spin_run 0 1 0) (spin_run 0 1 1)
    (by decide) e1
  have ht : t.sound_timer = 1 := hs (by decide)
  exact ⟨rfl, rfl, e1, hp.2 ht, rfl, e2, rfl⟩

/-! ## C13: the four conditional skips -/

/-- Dispatch of `3XNN`. -/
theorem execute_3xnn (s : Chip_8) (x nn : Nat) (hx : x < 16) (hnn : nn < 256)
    (hw : s.opcode = 0x3000 + 256 * x + nn) :
    execute s = .ok (pc_add_2 (skip_if_vx_eq_n s x nn)) := by
  have hg : s.opcode &&& 0xF000 = 0x3000 := by rw [land_F000, hw]; omega
  have hn : s.opcode &&& 0x00FF = nn := by rw [land_00FF, hw]; omega
  have hx1 : (s.opcode &&& 0x0F00) >>> 8 = x := by rw [land_0F00_shift, hw]; omega
  simp [execute, hg, hn, hx1]

/-- Dispatch of `4XNN`. -/
theorem execute_4xnn (s : Chip_8) (x nn : Nat) (hx : x < 16) (hnn : nn < 256)
    (hw : s.opcode = 0x4000 + 256 * x + nn) :
    execute s = .ok (pc_add_2 (skip_if_vx_ne_n s x nn)) := by
  have hg : s.opcode &&& 0xF000 = 0x4000 := by rw [land_F000, hw]; omega
  have hn : s.opcode &&& 0x00FF = nn := by rw [land_00FF, hw]; omega
  have hx1 : (s.opcode &&& 0x0F00) >>> 8 = x := by rw [land_0F00_shift, hw]; omega
  simp [execute, hg, hn, hx1]

/-- What a step leaves alone when its handler changes nothing but `pc`. -/
theorem skip_frame (s t : Chip_8) (c : Prop) [Decidable c]
    (ht : t = update_timers (pc_add_2 (if c then pc_add_2 { s with opcode := fetch s }
      else { s with opcode := fetch s }))) :
    t.pc = (if c then (s.pc + 4) % 65536 else (s.pc + 2) % 65536) ∧
      t.V = s.V ∧ t.memory = s.memory ∧ t.I = s.I ∧ t.stack = s.stack ∧ t.sp = s.sp ∧
      t.gfx = s.gfx := by
  subst ht
  by_cases h : c <;> simp [h]

/-- C13: one step on `3XNN`, `4XNN`, `5XY0` or `9XY0` sets `pc` to `(pc + 4) mod 65536` when
the predicate of the instruction (`Vx == NN`, `Vx != NN`, `Vx == Vy`, `Vx != Vy`) holds and to
`(pc + 2) mod 65536` when it does not, and changes no register, no memory byte, not `I`, not
the stack and not the display. -/
theorem conditional_skips (s : Chip_8) (x y nn : Nat) (hx : x < 16) (hy : y < 16)
    (hnn : nn < 256) (hpc : s.pc + 1 < 4096) :
    (fetch s = 0x3000 + 256 * x + nn → ∃ s1, emulate_cycle s = .ok s1 ∧
      s1.pc = (if s.V x = nn then (s.pc + 4) % 65536 else (s.pc + 2) % 65536) ∧
      s1.V = s.V ∧ s1.memory = s.memory ∧ s1.I = s.I ∧ s1.stack = s.stack ∧ s1.sp = s.sp ∧
      s1.gfx = s.gfx) ∧
    (fetch s = 0x4000 + 256 * x + nn → ∃ s1, emulate_cycle s = .ok s1 ∧
      s1.pc = (if s.V x ≠ nn then (s.pc + 4) % 65536 else (s.pc + 2) % 65536) ∧
      s1.V = s.V ∧ s1.memory = s.memory ∧ s1.I = s.I ∧ s1.stack = s.stack ∧ s1.sp = s.sp ∧
      s1.gfx = s.gfx) ∧
    (fetch s = 0x5000 + 256 * x + 16 * y → ∃ s1, emulate_cycle s = .ok s1 ∧
      s1.pc = (if s.V x = s.V y then (s.pc + 4) % 65536 else (s.pc + 2) % 65536) ∧
      s1.V = s.V ∧ s1.memory = s.memory ∧ s1.I = s.I ∧ s1.stack = s.stack ∧ s1.sp = s.sp ∧
      s1.gfx = s.gfx) ∧
    (fetch s = 0x9000 + 256 * x + 16 * y → ∃ s1, emulate_cycle s = .ok s1 ∧
      s1.pc = (if s.V x ≠ s.V y then (s.pc + 4) % 65536 else (s.pc + 2) % 65536) ∧
      s1.V = s.V ∧ s1.memory = s.memory ∧ s1.I = s.I ∧ s1.stack = s.stack ∧ s1.sp = s.sp ∧
      s1.gfx = s.gfx) := by
  refine ⟨?_, ?_, ?_, ?_⟩
  · intro hw
    rw [emulate_cycle_fetch s hpc, execute_3xnn _ x nn hx hnn hw]
    exact ⟨_, rfl, skip_frame s _ (s.V x = nn) rfl⟩
  · intro hw
    rw [emulate_cycle_fetch s hpc, execute_4xnn _ x nn hx hnn hw]
    exact ⟨_, rfl, skip_frame s _ (s.V x ≠ nn) rfl⟩
  · intro hw
    rw [emulate_cycle_fetch s hpc, execute_5xyn _ x y 0 hx hy (by decide) hw]
    exact ⟨_, rfl, skip_frame s _ (s.V x = s.V y) rfl⟩
  · intro hw
    rw [emulate_cycle_fetch s hpc, execute_9xyn _ x y 0 hx hy (by decide) hw]
    exact ⟨_, rfl, skip_frame s _ (s.V x ≠ s.V y) rfl⟩

/-- Witness for C13: with `V0 = 7`, the step on `3007` moves `pc` from `0x200` to `0x204` and
the step on `4007` moves it to `0x202`. -/
theorem conditional_skips_witness :
    (∃ s1, emulate_cycle (program_state 0x30 0x07 (upd (fun _ => 0) 0 7)) = .ok s1 ∧
      s1.pc = 0x204) ∧
    (∃ s1, emulate_cycle (program_state 0x40 0x07 (upd (fun _ => 0) 0 7)) = .ok s1 ∧
      s1.pc = 0x202) := by
  obtain ⟨s1, h1, p1, _⟩ :=
    (conditional_skips (program_state 0x30 0x07 (upd (fun _ => 0) 0 7)) 0 0 7
      (by decide) (by decide) (by decide) (by decide)).1
      (program_state_fetch _ _ _ (by decide) (by decide))
  obtain ⟨s2, h2, p2, _⟩ :=
    (conditional_skips (program_state 0x40 0x07 (upd (fun _ => 0) 0 7)) 0 0 7
      (by decide) (by decide) (by decide) (by decide)).2.1
      (program_state_fetch _ _ _ (by decide) (by decide))
  exact ⟨⟨s1, h1, by rw [p1]; decide⟩, ⟨s2, h2, by rw [p2]; decide⟩⟩

/-! ## C14: storing and loading a block of registers (`FX55`, `FX65`) -/

/-- Dispatch of `FX55`. -/
theorem execute_fx55 (s : Chip_8) (x : Nat) (hx : x < 16) (hw : s.opcode = 0xF055 + 256 * x) :
    execute s = (store_v0_to_vx_in_i s x).map pc_add_2 := by
  have hg : s.opcode &&& 0xF000 = 0xF000 := by rw [land_F000, hw]; omega
  have hn : s.opcode &&& 0x00FF = 0x55 := by rw [land_00FF, hw]; omega
  have hx1 : (s.opcode &&& 0x0F00) >>> 8 = x := by rw [land_0F00_shift, hw]; omega
  simp [execute, hg, hn, hx1]

/-- Dispatch of `FX65`. -/
theorem execute_fx65 (s : Chip_8) (x : Nat) (hx : x < 16) (hw : s.opcode = 0xF065 + 256 * x) :
    execute s = (read_i_into_v0_to_vx s x).map pc_add_2 := by
  have hg : s.opcode &&& 0xF000 = 0xF000 := by rw [land_F000, hw]; omega
  have hn : s.opcode &&& 0x00FF = 0x65 := by rw [land_00FF, hw]; omega
  have hx1 : (s.opcode &&& 0x0F00) >>> 8 = x := by rw [land_0F00_shift, hw]; omega
  simp [execute, hg, hn, hx1]

/-- The store loop inside memory: it ends normally, changes `memory` only, stores `V[i]` at
`I + i` for every index listed and leaves every other byte. -/
theorem store_loop_ok (l : List Nat) :
    ∀ s : Chip_8, (∀ i ∈ l, s.I + i < 4096) →
      ∃ t, store_loop l s = .ok t ∧ t = { s with memory := t.memory } ∧
        (∀ i ∈ l, t.memory (s.I + i) = s.V i) ∧
        (∀ a, (∀ i ∈ l, a ≠ s.I + i) → t.memory a = s.memory a) := by
  induction l with
  | nil =>
    intro s _
    refine ⟨s, rfl, rfl, ?_, ?_⟩
    · intro i hi; cases hi
    · intro a _; rfl
  | cons i l ih =>
    intro s h
    have hi : s.I + i < 4096 := h i (List.mem_cons_self _ _)
    obtain ⟨t, h1, h2, h3, h4⟩ := ih { s with memory := upd s.memory (s.I + i) (s.V i) }
      (fun j hj => h j (List.mem_cons_of_mem _ hj))
    refine ⟨t, ?_, ?_, ?_, ?_⟩
    · simp only [store_loop, subscript, hi, if_true]
      exact h1
    · rw [h2]
    · intro j hj
      by_cases hjl : j ∈ l
      · exact h3 j hjl
      · rcases List.mem_cons.1 hj with rfl | hj
        · have := h4 (s.I + j) (fun k hk e => hjl (by
            have : j = k := by
              have e' : s.I + j = s.I + k := e
              omega
            rw [this]; exact hk))
          rw [this]
          exact upd_same _ _ _
        · exact absurd hj hjl
    · intro a ha
      rw [h4 a (fun j hj => ha j (List.mem_cons_of_mem _ hj))]
      exact upd_other _ _ _ _ (ha i (List.mem_cons_self _ _))

/-- The load loop inside memory: it ends normally, changes `V` only, loads the byte at `I + i`
into `V[i]` for every index listed and leaves every other register. -/
theorem read_loop_ok (l : List Nat) :
    ∀ s : Chip_8, (∀ i ∈ l, s.I + i < 4096) →
      ∃ t, read_loop l s = .ok t ∧ t = { s with V := t.V } ∧
        (∀ i ∈ l, t.V i = s.memory (s.I + i)) ∧
        (∀ k, k ∉ l → t.V k = s.V k) := by
  induction l with
  | nil =>
    intro s _
    refine ⟨s, rfl, rfl, ?_, ?_⟩
    · intro i hi; cases hi
    · intro a _; rfl
  | cons i l ih =>
    intro s h
    have hi : s.I + i < 4096 := h i (List.mem_cons_self _ _)
    obtain ⟨t, h1, h2, h3, h4⟩ := ih { s with V := upd s.V i (s.memory (s.I + i)) }
      (fun j hj => h j (List.mem_cons_of_mem _ hj))
    refine ⟨t, ?_, ?_, ?_, ?_⟩
    · simp only [read_loop, subscript, hi, if_true]
      exact h1
    · rw [h2]
    · intro j hj
      by_cases hjl : j ∈ l
      · exact h3 j hjl
      · rcases List.mem_cons.1 hj with rfl | hj
        · rw [h4 j hjl]
          exact upd_same _ _ _
        · exact absurd hj hjl
    · intro k hk
      rw [h4 k (fun hkl => hk (List.mem_cons_of_mem _ hkl))]
      exact upd_other _ _ _ _ (fun e => hk (e ▸ List.mem_cons_self _ _))

/-- C14: for a register index `x` and `I + x < 4096`, one step on `FX55` stores `Vi` at
`memory[I + i]` for every `i` in `0..x` and leaves every other memory byte, every register and
`I` unchanged; and one step on `FX65` with the same `x` and `I`, from a state with that memory
and any register contents, sets `Vi` for every `i` in `0..x` back to the value stored and
leaves the registers above `x`, the memory and `I` unchanged. -/
theorem store_then_load (s : Chip_8) (x : Nat) (hx : x < 16) (hI : s.I + x < 4096)
    (hpc : s.pc + 1 < 4096) (hw : fetch s = 0xF055 + 256 * x) :
    ∃ s1, emulate_cycle s = .ok s1 ∧
      (∀ i, i ≤ x → s1.memory (s.I + i) = s.V i) ∧
      (∀ a, (a < s.I ∨ s.I + x < a) → s1.memory a = s.memory a) ∧
      s1.V = s.V ∧ s1.I = s.I ∧
      ∀ s2 : Chip_8, s2.memory = s1.memory → s2.I = s.I → s2.pc + 1 < 4096 →
        fetch s2 = 0xF065 + 256 * x →
        ∃ s3, emulate_cycle s2 = .ok s3 ∧
          (∀ i, i ≤ x → s3.V i = s.V i) ∧ (∀ k, x < k → s3.V k = s2.V k) ∧
          s3.memory = s2.memory ∧ s3.I = s2.I := by
  obtain ⟨t, h1, h2, h3, h4⟩ := store_loop_ok (List.range (x + 1)) { s with opcode := fetch s }
    (fun i hi => by have := List.mem_range.1 hi; show s.I + i < 4096; omega)
  have hmemI : ∀ i, i ≤ x → t.memory (s.I + i) = s.V i :=
    fun i hi => h3 i (List.mem_range.2 (by omega))
  refine ⟨update_timers (pc_add_2 t), ?_, ?_, ?_, ?_, ?_, ?_⟩
  · rw [emulate_cycle_fetch s hpc, execute_fx55 _ x hx hw]
    unfold store_v0_to_vx_in_i
    rw [h1]
    rfl
  · simpa only [update_timers_memory, pc_add_2_memory] using hmemI
  · intro a ha
    rw [update_timers_memory, pc_add_2_memory]
    apply h4 a
    intro i hi e
    have := List.mem_range.1 hi
    have e' : a = s.I + i := e
    omega
  · rw [update_timers_V, pc_add_2_V, h2]
  · rw [update_timers_I, pc_add_2_I, h2]
  · intro s2 hm2 hI2 hpc2 hw2
    rw [update_timers_memory, pc_add_2_memory] at hm2
    obtain ⟨u, g1, g2, g3, g4⟩ := read_loop_ok (List.range (x + 1))
      { s2 with opcode := fetch s2 }
      (fun i hi => by have := List.mem_range.1 hi; show s2.I + i < 4096; omega)
    refine ⟨update_timers (pc_add_2 u), ?_, ?_, ?_, ?_, ?_⟩
    · rw [emulate_cycle_fetch s2 hpc2, execute_fx65 _ x hx hw2]
      unfold read_i_into_v0_to_vx
      rw [g1]
      rfl
    · intro i hi
      rw [update_timers_V, pc_add_2_V, g3 i (List.mem_range.2 (by omega))]
      show s2.memory (s2.I + i) = s.V i
      rw [hm2, hI2]
      exact hmemI i hi
    · intro k hk
      rw [update_timers_V, pc_add_2_V, g4 k (fun h => by have := List.mem_range.1 h; omega)]
    · rw [update_timers_memory, pc_add_2_memory, g2]
    · rw [update_timers_I, pc_add_2_I, g2]

/-- Witness for C14: `F155` stores `V0 = 0xAB`, `V1 = 0xCD` at `0x300`, `0x301`; `F165` from
the resulting memory with all registers cleared loads them back. -/
theorem store_then_load_witness :
    ∃ s1, emulate_cycle store_load_state = .ok s1 ∧
      s1.memory 0x300 = 0xAB ∧ s1.memory 0x301 = 0xCD ∧
      ∃ s3, emulate_cycle { s1 with V := fun _ => 0, pc := 0x202 } = .ok s3 ∧
        s3.V 0 = 0xAB ∧ s3.V 1 = 0xCD := by
  obtain ⟨s1, h1, hm, ho, _, hI, hload⟩ := store_then_load store_load_state 1
    (by decide) (by decide) (by decide) (by decide)
  have hf : fetch { s1 with V := fun _ => 0, pc := 0x202 } = 0xF065 + 256 * 1 := by
    show ((s1.memory 0x202 <<< 8) ||| s1.memory (0x202 + 1)) % 65536 = _
    rw [ho 0x202 (Or.inl (by decide)), ho (0x202 + 1) (Or.inl (by decide))]
    decide
  obtain ⟨s3, h3, hv, _⟩ := hload { s1 with V := fun _ => 0, pc := 0x202 } rfl hI
    (by show 0x202 + 1 < 4096; decide) hf
  exact ⟨s1, h1, hm 0 (by decide), hm 1 (by decide), s3, h3, hv 0 (by decide),
    hv 1 (by decide)⟩

/-! ## C15: the two shifts (`8XY6`, `8XYE`) -/

/-- Dispatch of `8XY6`. -/
theorem execute_8xy6 (s : Chip_8) (x y : Nat) (hx : x < 16) (hy : y < 16)
    (hw : s.opcode = 0x8006 + 256 * x + 16 * y) :
    execute s = .ok (pc_add_2 (least_vx_to_vf_right_shift_vx s x)) := by
  have hg : s.opcode &&& 0xF000 = 0x8000 := by rw [land_F000, hw]; omega
  have hn : s.opcode &&& 0x000F = 6 := by rw [land_000F, hw]; omega
  have hx1 : (s.opcode &&& 0x0F00) >>> 8 = x := by rw [land_0F00_shift, hw]; omega
  simp [execute, hg, hn, hx1]

/-- Dispatch of `8XYE`. -/
theorem execute_8xye (s : Chip_8) (x y : Nat) (hx : x < 16) (hy : y < 16)
    (hw : s.opcode = 0x800E + 256 * x + 16 * y) :
    execute s = .ok (pc_add_2 (most_vx_to_vf_left_shift_vx s x)) := by
  have hg : s.opcode &&& 0xF000 = 0x8000 := by rw [land_F000, hw]; omega
  have hn : s.opcode &&& 0x000F = 0xE := by rw [land_000F, hw]; omega
  have hx1 : (s.opcode &&& 0x0F00) >>> 8 = x := by rw [land_0F00_shift, hw]; omega
  simp [execute, hg, hn, hx1]

/-- The mask `0x80` selects the digit of weight 128. -/
theorem land_0080 (v : Nat) : v &&& 0x80 = v / 128 % 2 * 128 := by
  have h1 : (v &&& 0x80) >>> 7 = v / 128 % 2 := by
    rw [land_shiftRight]
    show (v >>> 7) &&& 1 = _
    rw [Nat.shiftRight_eq_div_pow]
    exact Nat.and_pow_two_sub_one_eq_mod _ 1
  have h2 : (v &&& 0x80) % 128 = 0 := by
    rw [← Nat.and_pow_two_sub_one_eq_mod (v &&& 0x80) 7, Nat.and_assoc]
    show v &&& 0 = 0
    simp
  rw [Nat.shiftRight_eq_div_pow] at h1
  omega

/-- The registers left by `least_vx_to_vf_right_shift_vx`. -/
theorem least_vx_to_vf_right_shift_vx_V (s : Chip_8) (x : Nat) (hxF : x ≠ 0xF) :
    (least_vx_to_vf_right_shift_vx s x).V x = s.V x / 2 ∧
    (least_vx_to_vf_right_shift_vx s x).V 0xF = s.V x % 2 ∧
    ∀ k, k ≠ x → k ≠ 0xF → (least_vx_to_vf_right_shift_vx s x).V k = s.V k := by
  have hFx : (0xF : Nat) ≠ x := fun h => hxF h.symm
  have e1 : s.V x &&& 0x1 = s.V x % 2 := Nat.and_pow_two_sub_one_eq_mod _ 1
  have e2 : s.V x >>> 1 = s.V x / 2 := by rw [Nat.shiftRight_eq_div_pow]
  refine ⟨?_, ?_, ?_⟩
  · simp only [least_vx_to_vf_right_shift_vx, upd_same, upd_other _ _ _ _ hxF, e2]
  · simp only [least_vx_to_vf_right_shift_vx, upd_same, upd_other _ _ _ _ hFx, e1]
  · intro k h1 h2
    simp only [least_vx_to_vf_right_shift_vx, upd_other _ _ _ _ h1, upd_other _ _ _ _ h2]

/-- The registers left by `most_vx_to_vf_left_shift_vx` for a byte in `Vx`. -/
theorem most_vx_to_vf_left_shift_vx_V (s : Chip_8) (x : Nat) (hxF : x ≠ 0xF)
    (hv : s.V x < 256) :
    (most_vx_to_vf_left_shift_vx s x).V x = (2 * s.V x) % 256 ∧
    (most_vx_to_vf_left_shift_vx s x).V 0xF = s.V x / 128 ∧
    ∀ k, k ≠ x → k ≠ 0xF → (most_vx_to_vf_left_shift_vx s x).V k = s.V k := by
  have hFx : (0xF : Nat) ≠ x := fun h => hxF h.symm
  have e1 := land_0080 (s.V x)
  have e2 : s.V x <<< 1 = 2 * s.V x := by rw [Nat.shiftLeft_eq]; omega
  refine ⟨?_, ?_, ?_⟩
  · simp only [most_vx_to_vf_left_shift_vx, upd_same, upd_other _ _ _ _ hxF, e2]
  · simp only [most_vx_to_vf_left_shift_vx, upd_same, upd_other _ _ _ _ hFx]
    split_ifs with h <;> omega
  · intro k h1 h2
    simp only [most_vx_to_vf_left_shift_vx, upd_other _ _ _ _ h1, upd_other _ _ _ _ h2]

/-- C15: for a register index `x ≠ 0xF` holding the byte `v`, one step on `8XY6` leaves
`Vx = v / 2` and `VF = v mod 2`, and one step on `8XYE` leaves `Vx = (2 * v) mod 256` and
`VF = v / 128`; the register index `y` of the word does not enter the result, and no other
register changes. -/
theorem shifts (s : Chip_8) (x y : Nat) (hx : x < 16) (hy : y < 16) (hxF : x ≠ 0xF)
    (hv : s.V x < 256) (hpc : s.pc + 1 < 4096) :
    (fetch s = 0x8006 + 256 * x + 16 * y → ∃ s1, emulate_cycle s = .ok s1 ∧
      s1.V x = s.V x / 2 ∧ s1.V 0xF = s.V x % 2 ∧
      ∀ k, k ≠ x → k ≠ 0xF → s1.V k = s.V k) ∧
    (fetch s = 0x800E + 256 * x + 16 * y → ∃ s1, emulate_cycle s = .ok s1 ∧
      s1.V x = (2 * s.V x) % 256 ∧ s1.V 0xF = s.V x / 128 ∧
      ∀ k, k ≠ x → k ≠ 0xF → s1.V k = s.V k) := by
  constructor
  · intro hw
    rw [emulate_cycle_fetch s hpc, execute_8xy6 _ x y hx hy hw]
    refine ⟨_, rfl, ?_⟩
    simp only [update_timers_V, pc_add_2_V]
    exact least_vx_to_vf_right_shift_vx_V { s with opcode := fetch s } x hxF
  · intro hw
    rw [emulate_cycle_fetch s hpc, execute_8xye _ x y hx hy hw]
    refine ⟨_, rfl, ?_⟩
    simp only [update_timers_V, pc_add_2_V]
    exact most_vx_to_vf_left_shift_vx_V { s with opcode := fetch s } x hxF hv

/-- Witness for C15: `8016` with `V0 = 0x03` gives `V0 = 0x01`, `VF = 1`; `801E` with
`V0 = 0x80` gives `V0 = 0x00`, `VF = 1`. -/
theorem shifts_witness :
    (∃ s1, emulate_cycle (program_state 0x80 0x16 (upd (fun _ => 0) 0 0x03)) = .ok s1 ∧
      s1.V 0 = 0x01 ∧ s1.V 0xF = 1) ∧
    (∃ s1, emulate_cycle (program_state 0x80 0x1E (upd (fun _ => 0) 0 0x80)) = .ok s1 ∧
      s1.V 0 = 0x00 ∧ s1.V 0xF = 1) := by
  obtain ⟨s1, h1, a1, b1, _⟩ :=
    (shifts (program_state 0x80 0x16 (upd (fun _ => 0) 0 0x03)) 0 1
      (by decide) (by decide) (by decide) (by decide) (by decide)).1
      (program_state_fetch _ _ _ (by decide) (by decide))
  obtain ⟨s2, h2, a2, b2, _⟩ :=
    (shifts (program_state 0x80 0x1E (upd (fun _ => 0) 0 0x80)) 0 1
      (by decide) (by decide) (by decide) (by decide) (by decide)).2
      (program_state_fetch _ _ _ (by decide) (by decide))
  exact ⟨⟨s1, h1, by rw [a1]; decide, by rw [b1]; decide⟩,
    ⟨s2, h2, by rw [a2]; decide, by rw [b2]; decide⟩⟩

/-! ## C16: waiting for a key (`FX0A`) -/

/-- Dispatch of `FX0A`. -/
theorem execute_fx0a (s : Chip_8) (x : Nat) (hx : x < 16) (hw : s.opcode = 0xF00A + 256 * x) :
    execute s = (wait_vx_key_press s x).map pc_add_2 := by
  have hg : s.opcode &&& 0xF000 = 0xF000 := by rw [land_F000, hw]; omega
  have hn : s.opcode &&& 0x00FF = 0x0A := by rw [land_00FF, hw]; omega
  have hx1 : (s.opcode &&& 0x0F00) >>> 8 = x := by rw [land_0F00_shift, hw]; omega
  simp [execute, hg, hn, hx1]

/-- Only a `Closed` event closes the window. -/
theorem handle_event_window_open (s : Chip_8) (x : Nat) (e : Event) (he : e.type ≠ .Closed) :
    (handle_event s x e).window_open = s.window_open := by
  unfold handle_event set_keys focus unfocus
  simp only [he, if_false]
  split_ifs <;> (try split) <;> rfl

/-- The poll loops of `wait_vx_key_press` do not end while the window is open: whatever events
other than `Closed` the host reports, key presses included, the loops keep polling. -/
theorem wait_loop_blocked (x : Nat) (evs : List (Option Event)) :
    ∀ s : Chip_8, s.window_open = true → (∀ e, some e ∈ evs → e.type ≠ .Closed) →
      wait_loop x evs s = .error .blocked := by
  induction evs with
  | nil => intro s ho _; simp [wait_loop, ho]
  | cons e evs ih =>
    intro s ho he
    cases e with
    | none =>
      simp only [wait_loop, ho, if_true]
      exact ih s ho (fun e h => he e (List.mem_cons_of_mem _ h))
    | some e =>
      simp only [wait_loop, ho, if_true]
      apply ih
      · rw [handle_event_window_open s x e (he e (List.mem_cons_self _ _))]
        exact ho
      · exact fun e h => he e (List.mem_cons_of_mem _ h)

/-- C16, the code on every input of the claim: one step on `FX0A` with the window open and
host events none of which closes the window does not finish, whatever key presses the events
report; the step is still polling when the events are used up. -/
theorem wait_vx_key_press_keeps_polling (s : Chip_8) (x : Nat) (hx : x < 16)
    (hpc : s.pc + 1 < 4096) (hw : fetch s = 0xF00A + 256 * x) (hopen : s.window_open = true)
    (hev : ∀ e, some e ∈ s.events → e.type ≠ .Closed) :
    emulate_cycle s = .error .blocked := by
  rw [emulate_cycle_fetch s hpc, execute_fx0a _ x hx hw]
  unfold wait_vx_key_press
  rw [wait_loop_blocked x s.events { s with opcode := fetch s } hopen hev]
  rfl

/-- Witness for C16: a press of key 5 followed by two polls of an empty queue. -/
theorem wait_vx_key_press_keeps_polling_witness :
    emulate_cycle (wait_state [some ⟨.KeyPressed, key_down 5⟩, none, none])
      = .error .blocked :=
  wait_vx_key_press_keeps_polling _ 0 (by decide) (by decide) rfl rfl (by
    intro e he
    simp only [wait_state, List.mem_cons, Option.some.injEq, List.mem_singleton,
      reduceCtorEq, or_false, List.not_mem_nil] at he
    rw [he]
    decide)

/-- The step on `FX0A` ends only when the window is closed: after presses of key 5 and then
key 7 and a `Closed` event it ends with `V0 = 7`, the key of the last press, all three events
consumed, and `pc` advanced by 2. -/
theorem wait_vx_key_press_ends_on_close :
    ∃ s1, emulate_cycle (wait_state [some ⟨.KeyPressed, key_down 5⟩,
        some ⟨.KeyPressed, key_down 7⟩, some ⟨.Closed, key_down 7⟩]) = .ok s1 ∧
      s1.V 0 = 7 ∧ s1.events = [] ∧ s1.window_open = false ∧ s1.pc = 0x202 :=
  ⟨_, rfl, rfl, rfl, rfl, rfl⟩

/-! ## C19: the writers of the display -/

/-- Dispatch of group `0` with low byte `E0`. -/
theorem execute_0xe0 (s : Chip_8) (hg : s.opcode / 4096 % 16 = 0) (hlo : s.opcode % 256 = 0xE0) :
    execute s = .ok (pc_add_2 (clear_screen s)) := by
  have g : s.opcode &&& 0xF000 = 0x0000 := by rw [land_F000]; omega
  have b : s.opcode &&& 0x00FF = 0xE0 := by rw [land_00FF]; exact hlo
  simp [execute, g, b]

/-- C19 (as amended): a step that executes to completion an instruction word that is neither
`DXYN` nor a word `0XE0` (first digit 0, low byte `E0`) leaves every display cell as it was;
and a step on a word `0XE0`, in particular on `00E0`, leaves all 2048 cells at 0. -/
theorem display_writers (s : Chip_8) (hpc : s.pc < 4096) :
    (∀ s1, emulate_cycle s = .ok s1 → fetch s / 4096 ≠ 0xD →
      ¬ (fetch s / 4096 = 0 ∧ fetch s % 256 = 0xE0) → ∀ j, s1.gfx j = s.gfx j) ∧
    (s.pc + 1 < 4096 → fetch s / 4096 = 0 → fetch s % 256 = 0xE0 →
      ∃ s1, emulate_cycle s = .ok s1 ∧ ∀ j, j < 64 * 32 → s1.gfx j = 0) := by
  have hlt := fetch_lt s
  constructor
  · intro s1 h hD hE j
    obtain ⟨_, t, ht, rfl⟩ := emulate_cycle_ok s s1 hpc h
    have hf := (execute_frame _ t ht).2.2.2
      (by show ¬ (fetch s &&& 0xF000 = 0xD000); rw [land_F000]; omega)
      (by show ¬ (fetch s &&& 0xF000 = 0x0000 ∧ fetch s &&& 0x00FF = 0x00E0)
          rw [land_F000, land_00FF]; omega)
    rw [update_timers_gfx, hf]
  · intro hpc1 hg hlo
    rw [emulate_cycle_fetch s hpc1,
      execute_0xe0 { s with opcode := fetch s } (by show fetch s / 4096 % 16 = 0; omega) hlo]
    refine ⟨_, rfl, ?_⟩
    intro j hj
    rw [update_timers_gfx, pc_add_2_gfx]
    simp [clear_screen, hj]

/-- Witness for C19: the step on `6005` leaves a lit cell lit, the step on `00E0` clears it. -/
theorem display_writers_witness :
    (∃ s1, emulate_cycle { program_state 0x60 0x05 (fun _ => 0) with gfx := upd (fun _ => 0) 0 1 }
        = .ok s1 ∧ s1.gfx 0 = 1) ∧
    (∃ s1, emulate_cycle { program_state 0x00 0xE0 (fun _ => 0) with gfx := upd (fun _ => 0) 0 1 }
        = .ok s1 ∧ s1.gfx 0 = 0) := by
  constructor
  · refine ⟨_, rfl, ?_⟩
    exact (display_writers
      { program_state 0x60 0x05 (fun _ => 0) with gfx := upd (fun _ => 0) 0 1 } (by decide)).1
      _ rfl (by decide) (by decide) 0
  · obtain ⟨s1, h, hz⟩ := (display_writers
      { program_state 0x00 0xE0 (fun _ => 0) with gfx := upd (fun _ => 0) 0 1 } (by decide)).2
      (by decide) (by decide) (by decide)
    exact ⟨s1, h, hz 0 (by decide)⟩

/-- C19 as stated fails for the word `01E0`, which is not `00E0`: the step completes and
clears the display, so the lit cell 0 does not keep its value. -/
theorem word_01E0_clears_display :
    word_01E0_state.gfx 0 = 1 ∧ fetch word_01E0_state = 0x01E0 ∧
    ∃ s1, emulate_cycle word_01E0_state = .ok s1 ∧ s1.gfx 0 = 0 :=
  ⟨rfl, rfl, _, rfl, rfl⟩

/-! ## C17: the values of the display cells -/

/-- C17, the code at the failing input: on a blank display the step on `D011` with sprite byte
`0xFF` at `(0, 0)` leaves cells 0..7 of row 0 at `0x80, 0x40, 0x20, 0x10, 8, 4, 2, 1`: each
cell holds the sprite bit in its position in the byte, so only cell 7 is 0 or 1. -/
theorem draw_leaves_mask_values :
    (∀ j, draw_twice_state.gfx j = 0) ∧
    ∃ s1, emulate_cycle draw_twice_state = .ok s1 ∧
      s1.gfx 0 = 0x80 ∧ s1.gfx 1 = 0x40 ∧ s1.gfx 2 = 0x20 ∧ s1.gfx 3 = 0x10 ∧
      s1.gfx 4 = 8 ∧ s1.gfx 5 = 4 ∧ s1.gfx 6 = 2 ∧ s1.gfx 7 = 1 :=
  ⟨fun _ => rfl, _, rfl, rfl, rfl, rfl, rfl, rfl, rfl, rfl, rfl⟩

/-! ## C18: the addresses of the memory accesses of a step -/

/-- The row loop of `draw` ends normally when every sprite row read lies inside memory,
whatever the operand registers are. -/
theorem draw_rows_ok (x y : Nat) (rows : List Nat) :
    ∀ s : Chip_8, (∀ r ∈ rows, s.I + r < 4096) → ∃ t, draw_rows x y rows s = .ok t := by
  induction rows with
  | nil => intro s _; exact ⟨s, rfl⟩
  | cons r rows ih =>
    intro s h
    have hr : s.I + r < 4096 := h r (List.mem_cons_self _ _)
    simp only [draw_rows, draw_row, subscript, hr, if_true]
    apply ih
    intro r1 h1
    rw [draw_cols_frame x y r (s.memory (s.I + r)) (List.range 8) s]
    exact h r1 (List.mem_cons_of_mem _ h1)

/-- The row loop of `draw` ends in an access outside memory when some sprite row read lies
outside. -/
theorem draw_rows_out_of_bounds (x y : Nat) (rows : List Nat) :
    ∀ s : Chip_8, (∃ r ∈ rows, 4096 ≤ s.I + r) →
      draw_rows x y rows s = .error .out_of_bounds := by
  induction rows with
  | nil => intro s ⟨r, hr, _⟩; cases hr
  | cons r rows ih =>
    intro s ⟨r1, h1, h2⟩
    by_cases hr : s.I + r < 4096
    · simp only [draw_rows, draw_row, subscript, hr, if_true]
      apply ih
      rcases List.mem_cons.1 h1 with rfl | h1
      · omega
      · refine ⟨r1, h1, ?_⟩
        rw [draw_cols_frame x y r (s.memory (s.I + r)) (List.range 8) s]
        exact h2
    · simp [draw_rows, draw_row, subscript, hr]

/-- The store loop ends in an access outside memory when some address `I + i` lies outside. -/
theorem store_loop_out_of_bounds (l : List Nat) :
    ∀ s : Chip_8, (∃ i ∈ l, 4096 ≤ s.I + i) → store_loop l s = .error .out_of_bounds := by
  induction l with
  | nil => intro s ⟨r, hr, _⟩; cases hr
  | cons i l ih =>
    intro s ⟨i1, h1, h2⟩
    by_cases hi : s.I + i < 4096
    · simp only [store_loop, subscript, hi, if_true]
      apply ih
      rcases List.mem_cons.1 h1 with rfl | h1
      · omega
      · exact ⟨i1, h1, h2⟩
    · simp [store_loop, subscript, hi]

/-- The load loop ends in an access outside memory when some address `I + i` lies outside. -/
theorem read_loop_out_of_bounds (l : List Nat) :
    ∀ s : Chip_8, (∃ i ∈ l, 4096 ≤ s.I + i) → read_loop l s = .error .out_of_bounds := by
  induction l with
  | nil => intro s ⟨r, hr, _⟩; cases hr
  | cons i l ih =>
    intro s ⟨i1, h1, h2⟩
    by_cases hi : s.I + i < 4096
    · simp only [read_loop, subscript, hi, if_true]
      apply ih
      rcases List.mem_cons.1 h1 with rfl | h1
      · omega
      · exact ⟨i1, h1, h2⟩
    · simp [read_loop, subscript, hi]

/-- The stores of `set_i_to_bcd_of_vx` reach an address outside memory when `I + 2` does. -/
theorem set_i_to_bcd_of_vx_out_of_bounds (s : Chip_8) (x : Nat) (hI : 4096 ≤ s.I + 2) :
    set_i_to_bcd_of_vx s x = .error .out_of_bounds := by
  have h2 : ¬ s.I + 2 < 4096 := by omega
  unfold set_i_to_bcd_of_vx subscript
  dsimp only
  split_ifs <;> rfl

/-- C18 (as amended): in a step from a state with `pc + 1 < 4096` both instruction bytes lie
inside memory; the sprite rows of `DXYN` lie inside memory exactly when `n = 0` or
`I + n <= 4096`, the three bytes of `FX33` exactly when `I + 2 < 4096`, the block of `FX55` and
of `FX65` exactly when `I + x < 4096`: within these bounds the step ends normally, beyond them
it ends in the access outside memory. -/
theorem memory_accesses (s : Chip_8) (x y n : Nat) (hx : x < 16) (hy : y < 16) (hn : n < 16)
    (hpc : s.pc + 1 < 4096) :
    (subscript 4096 s.pc = .ok () ∧ subscript 4096 (s.pc + 1) = .ok ()) ∧
    (fetch s = 0xD000 + 256 * x + 16 * y + n →
      ((n = 0 ∨ s.I + n ≤ 4096) → ∃ s1, emulate_cycle s = .ok s1) ∧
      (¬ (n = 0 ∨ s.I + n ≤ 4096) → emulate_cycle s = .error .out_of_bounds)) ∧
    (fetch s = 0xF033 + 256 * x →
      (s.I + 2 < 4096 → ∃ s1, emulate_cycle s = .ok s1) ∧
      (¬ s.I + 2 < 4096 → emulate_cycle s = .error .out_of_bounds)) ∧
    (fetch s = 0xF055 + 256 * x →
      (s.I + x < 4096 → ∃ s1, emulate_cycle s = .ok s1) ∧
      (¬ s.I + x < 4096 → emulate_cycle s = .error .out_of_bounds)) ∧
    (fetch s = 0xF065 + 256 * x →
      (s.I + x < 4096 → ∃ s1, emulate_cycle s = .ok s1) ∧
      (¬ s.I + x < 4096 → emulate_cycle s = .error .out_of_bounds)) := by
  refine ⟨⟨?_, ?_⟩, ?_, ?_, ?_, ?_⟩
  · have : s.pc < 4096 := by omega
    simp [subscript, this]
  · simp [subscript, hpc]
  · intro hw
    rw [emulate_cycle_fetch s hpc, execute_dxyn _ x y n hx hy hn hw]
    unfold draw
    constructor
    · intro hb
      obtain ⟨t, ht⟩ := draw_rows_ok x y (List.range n)
        { s with opcode := fetch s, V := upd s.V 0xF 0 }
        (fun r hr => by
          have := List.mem_range.1 hr
          show s.I + r < 4096
          omega)
      exact ⟨_, by rw [ht]; rfl⟩
    · intro hb
      rw [draw_rows_out_of_bounds x y (List.range n)
        { s with opcode := fetch s, V := upd s.V 0xF 0 }
        ⟨n - 1, List.mem_range.2 (by omega), by show 4096 ≤ s.I + (n - 1); omega⟩]
      rfl
  · intro hw
    rw [emulate_cycle_fetch s hpc, execute_fx33 _ x hx hw]
    constructor
    · intro hb
      rw [set_i_to_bcd_of_vx_ok { s with opcode := fetch s } x hb]
      exact ⟨_, rfl⟩
    · intro hb
      rw [set_i_to_bcd_of_vx_out_of_bounds { s with opcode := fetch s } x
        (by show 4096 ≤ s.I + 2; omega)]
      rfl
  · intro hw
    rw [emulate_cycle_fetch s hpc, execute_fx55 _ x hx hw]
    unfold store_v0_to_vx_in_i
    constructor
    · intro hb
      obtain ⟨t, ht, _⟩ := store_loop_ok (List.range (x + 1)) { s with opcode := fetch s }
        (fun i hi => by have := List.mem_range.1 hi; show s.I + i < 4096; omega)
      exact ⟨_, by rw [ht]; rfl⟩
    · intro hb
      rw [store_loop_out_of_bounds (List.range (x + 1)) { s with opcode := fetch s }
        ⟨x, List.mem_range.2 (by omega), by show 4096 ≤ s.I + x; omega⟩]
      rfl
  · intro hw
    rw [emulate_cycle_fetch s hpc, execute_fx65 _ x hx hw]
    unfold read_i_into_v0_to_vx
    constructor
    · intro hb
      obtain ⟨t, ht, _⟩ := read_loop_ok (List.range (x + 1)) { s with opcode := fetch s }
        (fun i hi => by have := List.mem_range.1 hi; show s.I + i < 4096; omega)
      exact ⟨_, by rw [ht]; rfl⟩
    · intro hb
      rw [read_loop_out_of_bounds (List.range (x + 1)) { s with opcode := fetch s }
        ⟨x, List.mem_range.2 (by omega), by show 4096 ≤ s.I + x; omega⟩]
      rfl

/-- Witness for C18: `F233` with `I = 0x300` ends normally. -/
theorem memory_accesses_witness :
    ∃ s1, emulate_cycle { program_state 0xF2 0x33 (upd (fun _ => 0) 2 234) with I := 0x300 }
      = .ok s1 :=
  ((memory_accesses { program_state 0xF2 0x33 (upd (fun _ => 0) 2 234) with I := 0x300 }
    2 0 0 (by decide) (by decide) (by decide) (by decide)).2.2.1
    (program_state_fetch 0xF2 0x33 (upd (fun _ => 0) 2 234) (by decide) (by decide))).1
    (by decide)

/-- C18 as stated fails: with `pc = 0x200` and `I = 0xFFE` the step on `F033` stores at
address `0x1000`, outside memory; and with `pc = 4095` the fetch reads `memory[4096]`. -/
theorem access_outside_memory :
    ({ program_state 0xF0 0x33 (fun _ => 0) with I := 0xFFE } : Chip_8).pc < 4096 ∧
    emulate_cycle { program_state 0xF0 0x33 (fun _ => 0) with I := 0xFFE }
      = .error .out_of_bounds ∧
    ({ program_state 0x00 0xE0 (fun _ => 0) with pc := 4095 } : Chip_8).pc < 4096 ∧
    emulate_cycle { program_state 0x00 0xE0 (fun _ => 0) with pc := 4095 }
      = .error .out_of_bounds :=
  ⟨by decide, rfl, by decide, rfl⟩

/-- Dispatch of `BNNN`. -/
theorem execute_bnnn (s : Chip_8) (A : Nat) (hA : A < 4096) (hw : s.opcode = 0xB000 + A) :
    execute s = .ok (jump_to_address_plus_v0 s A) := by
  have hg : s.opcode &&& 0xF000 = 0xB000 := by rw [land_F000, hw]; omega
  have ha : s.opcode &&& 0x0FFF = A := by rw [land_0FFF, hw]; omega
  simp [execute, hg, ha]

/-- C20: a step from a state whose program counter is 4096 or more returns normally and
leaves the whole state as it was, so any number of further steps does the same. -/
theorem emulate_cycle_pc_outside (s : Chip_8) (h : 4096 ≤ s.pc) :
    emulate_cycle s = .ok s ∧ ∀ k, cycles k s = .ok s := by
  have h1 : emulate_cycle s = .ok s := by simp [emulate_cycle, h]
  refine ⟨h1, ?_⟩
  intro k
  induction k with
  | zero => rfl
  | succ k ih => simp only [cycles, h1]; exact ih

/-- Witness for C20: `BFFF` with `V0 = 1` sets `pc = 4096`; from there every step is the
same no-op. -/
theorem emulate_cycle_pc_outside_witness :
    ∃ s1, emulate_cycle (program_state 0xBF 0xFF (upd (fun _ => 0) 0 1)) = .ok s1 ∧
      s1.pc = 4096 ∧ emulate_cycle s1 = .ok s1 ∧ ∀ k, cycles k s1 = .ok s1 := by
  have e : emulate_cycle (program_state 0xBF 0xFF (upd (fun _ => 0) 0 1))
      = .ok (update_timers (jump_to_address_plus_v0
          { program_state 0xBF 0xFF (upd (fun _ => 0) 0 1) with
            opcode := fetch (program_state 0xBF 0xFF (upd (fun _ => 0) 0 1)) } 0xFFF)) := by
    rw [emulate_cycle_fetch _ (by decide),
      execute_bnnn _ 0xFFF (by decide) (program_state_fetch _ _ _ (by decide) (by decide))]
    rfl
  have hp : (update_timers (jump_to_address_plus_v0
          { program_state 0xBF 0xFF (upd (fun _ => 0) 0 1) with
            opcode := fetch (program_state 0xBF 0xFF (upd (fun _ => 0) 0 1)) } 0xFFF)).pc
      = 4096 := by
    rw [update_timers_pc]; rfl
  have := emulate_cycle_pc_outside _ (Nat.le_of_eq hp.symm)
  exact ⟨_, e, hp, this.1, this.2⟩

end Chip8
